import Mathlib

/-!
# Verification of the two table-driven assemblers (`mips_assembler.py`, `riscv_assembler.py`)

Shallow embedding of the two Python source files.  Conventions used throughout:

* Python strings are modelled as `List Char` (`Asm.Str`); every string
  operation of the source (`strip`, `split`, `replace`, `lower`, regular
  expressions) is re-implemented character by character below.
* Python's unbounded `int` is modelled as `Int`.  On unbounded integers
  Python's `x << k` equals `x * 2 ^ k`, `x >> k` is the floor division
  `x / 2 ^ k`, `x & (2 ^ k - 1)` equals the nonnegative remainder
  `x % 2 ^ k`, and `x | y` is `Int.lor` — Lean's `/` and `%` on `Int`
  (Euclidean) agree with Python's floor semantics for the positive
  power-of-two divisors used here.
* Python exceptions (`KeyError`, `IndexError`, `ValueError`,
  `AttributeError`) and the `sys.exit(1)` handler abort the whole run and
  no output file is written; both are modelled by `Except Unit`, with
  `.error ()` meaning "the process terminates with nonzero status and
  produces no output".
* The hexadecimal rendering `format(code, '08x')` and the `.coe` writer
  are the excluded output stage; the word list is modelled as the list of
  integer values appended to `binary_output` / `binary_res`.
* Python `dict` (label tables) is modelled as an association list with
  overwrite-on-assignment semantics (`Asm.dset`).
* `int(x)` / `int(x, 0)` are modelled including sign handling, `0x`/`0o`/`0b`
  prefixes and the leading-zero rejection of base 0; PEP 515 digit
  underscores are not modelled (no claim involves them).
-/

namespace Asm

/-- Python strings, modelled as lists of characters. -/
abbrev Str := List Char

/-- Shorthand turning a Lean string literal into the `List Char` model. -/
def S (s : String) : Str := s.data

/-- Python's whitespace class `\s` (ASCII), also used by `str.strip()`. -/
def isSpace (c : Char) : Bool :=
  c = ' ' ∨ c = '\t' ∨ c = '\n' ∨ c = '\r' ∨ c = '\x0b' ∨ c = '\x0c'

/-- `s.lstrip()`. -/
def lstrip (s : Str) : Str := s.dropWhile isSpace

/-- `s.rstrip()`. -/
def rstrip (s : Str) : Str := (lstrip s.reverse).reverse

/-- `s.strip()`. -/
def strip (s : Str) : Str := rstrip (lstrip s)

/-- `line.split('#')[0]`: everything before the first occurrence of `c`. -/
def takeUntil (c : Char) (s : Str) : Str := s.takeWhile (fun d => d ≠ c)

/-- `s.split(sep, 1)` when `sep` occurs: the parts before and after the first
occurrence; `none` when `sep` does not occur (so that a 2-tuple unpacking of
`s.split(sep, 1)` raises). -/
def splitOnce (sep : Char) : Str → Option (Str × Str)
  | [] => none
  | c :: rest =>
    if c = sep then some ([], rest)
    else (splitOnce sep rest).map (fun p => (c :: p.1, p.2))

/-- `re.split(r'[ \t]+', line, 1)`: the part before the first run of
spaces/tabs, and (when such a run exists) the part after it. -/
def splitWs1 : Str → Str × Option Str
  | [] => ([], none)
  | c :: rest =>
    if c = ' ' ∨ c = '\t' then
      ([], some (rest.dropWhile (fun d => d = ' ' ∨ d = '\t')))
    else
      let p := splitWs1 rest
      (c :: p.1, p.2)

/-- `s.lower()` (ASCII letters; the mnemonics compared against the tables are
ASCII). -/
def toLowerStr (s : Str) : Str := s.map Char.toLower

/-- Decimal digit value. -/
def digVal (c : Char) : Option Nat :=
  if '0' ≤ c ∧ c ≤ '9' then some (c.toNat - 48) else none

/-- Hexadecimal digit value. -/
def hexVal (c : Char) : Option Nat :=
  if '0' ≤ c ∧ c ≤ '9' then some (c.toNat - 48)
  else if 'a' ≤ c ∧ c ≤ 'f' then some (c.toNat - 87)
  else if 'A' ≤ c ∧ c ≤ 'F' then some (c.toNat - 55)
  else none

/-- Octal digit value. -/
def octVal (c : Char) : Option Nat :=
  if '0' ≤ c ∧ c ≤ '7' then some (c.toNat - 48) else none

/-- Binary digit value. -/
def binVal (c : Char) : Option Nat :=
  if c = '0' ∨ c = '1' then some (c.toNat - 48) else none

/-- Accumulate a nonempty digit string in the given base. -/
def parseDigitsAux (dv : Char → Option Nat) (base : Nat) : Nat → Str → Option Nat
  | acc, [] => some acc
  | acc, c :: rest =>
    match dv c with
    | some d => parseDigitsAux dv base (acc * base + d) rest
    | none => none

/-- A nonempty all-digit string in the given base. -/
def parseDigits (dv : Char → Option Nat) (base : Nat) (s : Str) : Option Nat :=
  if s.isEmpty then none else parseDigitsAux dv base 0 s

/-- Python `int(x)` (base 10): optional surrounding whitespace, optional sign,
then a nonempty run of decimal digits (leading zeros allowed in base 10). -/
def parseInt10 (s : Str) : Option Int :=
  let t := strip s
  match t with
  | '-' :: rest => (parseDigits digVal 10 rest).map (fun n => -(n : Int))
  | '+' :: rest => (parseDigits digVal 10 rest).map (fun n => (n : Int))
  | _ => (parseDigits digVal 10 t).map (fun n => (n : Int))

/-- The unsigned part of Python `int(x, 0)`: `0x`/`0o`/`0b` prefixes, or a
decimal literal which must not have leading zeros unless it is all zeros. -/
def parseUnsigned0 : Str → Option Nat
  | [] => none
  | ['0'] => some 0
  | '0' :: c :: rest =>
    if c = 'x' ∨ c = 'X' then parseDigits hexVal 16 rest
    else if c = 'o' ∨ c = 'O' then parseDigits octVal 8 rest
    else if c = 'b' ∨ c = 'B' then parseDigits binVal 2 rest
    else if (c :: rest).all (fun d => d = '0') then some 0
    else none
  | c :: rest =>
    if '1' ≤ c ∧ c ≤ '9' then parseDigits digVal 10 (c :: rest) else none

/-- Python `int(x, 0)`. -/
def parseInt0 (s : Str) : Option Int :=
  let t := strip s
  match t with
  | '-' :: rest => (parseUnsigned0 rest).map (fun n => -(n : Int))
  | '+' :: rest => (parseUnsigned0 rest).map (fun n => (n : Int))
  | _ => (parseUnsigned0 t).map (fun n => (n : Int))

/-- Python `str(i)` for an `int`, as used by the f-strings of the pseudo
expansions. -/
def pyStr (i : Int) : Str :=
  if i < 0 then '-' :: Nat.toDigits 10 (-i).toNat else Nat.toDigits 10 i.toNat

/-- A Python `dict` keyed by strings with integer values. -/
abbrev Dict := List (Str × Int)

/-- `d[k]`, as an `Option`. -/
def dget : Dict → Str → Option Int
  | [], _ => none
  | (k', v) :: rest, k => if k' = k then some v else dget rest k

/-- `d[k] = v`: overwrite an existing binding, otherwise append. -/
def dset : Dict → Str → Int → Dict
  | [], k, v => [(k, v)]
  | (k', v') :: rest, k, v =>
    if k' = k then (k, v) :: rest else (k', v') :: dset rest k v

/-- `k in d`. -/
def dmem (d : Dict) (k : Str) : Bool := (dget d k).isSome

/-- A statement after preprocessing: mnemonic and raw operand text (the
`[mnemonic, args]` lists / `(op, args)` tuples of the sources). -/
structure Stmt where
  mnemonic : Str
  args : Str
deriving DecidableEq, Repr

/-- Turn a Python expression that may raise into the fail-fast model. -/
def req {α : Type} : Option α → Except Unit α
  | some a => .ok a
  | none => .error ()

/-- The label-definition block shared by both pass-1 loops:
`if ':' in line: name, rem = line.split(':', 1); labels[name.strip()] = v;
line = rem.strip()`, where `v` is the current instruction count (MIPS) or
program counter (RISC-V). -/
def labelSplit (labels : Dict) (v : Int) (line : Str) : Dict × Str :=
  match splitOnce ':' line with
  | some (nm, rem) => (dset labels (strip nm) v, strip rem)
  | none => (labels, line)

theorem dropWhile_len_le {α : Type} (p : α → Bool) :
    ∀ l : List α, (l.dropWhile p).length ≤ l.length
  | [] => le_refl _
  | a :: l => by
    simp only [List.dropWhile_cons]
    split
    · exact Nat.le_succ_of_le (dropWhile_len_le p l)
    · exact le_refl _

/-- The operand splitter `re.split(r',|(?<=\))\s*(?=LA)', args_str)`:
split on every comma, and additionally just after a `)` that is followed
(after optional whitespace, which the regex separator consumes) by a
character satisfying the lookahead `la`.  MIPS uses `la = ($)`; RISC-V uses
`la ∈ {x,a,t,s,z,r,f,g,p}`.  Here the separator's `\s*` run is left on the
front of the following raw token instead of being consumed; the per-token
`.strip()` applied by `split_args` below erases it, so the resulting list is
the same as the source's. -/
def splitArgsAux (la : Char → Bool) : Str → Str → List Str
  | [], cur => [cur.reverse]
  | c :: rest, cur =>
    if c = ',' then cur.reverse :: splitArgsAux la rest []
    else if c = ')' then
      match rest.dropWhile isSpace with
      | d :: _ =>
        if la d then (')' :: cur).reverse :: splitArgsAux la rest []
        else splitArgsAux la rest (')' :: cur)
      | [] => splitArgsAux la rest (')' :: cur)
    else splitArgsAux la rest (c :: cur)

/-- `[a.strip() for a in re.split(...) if a.strip()]`. -/
def split_args (la : Char → Bool) (s : Str) : List Str :=
  ((splitArgsAux la s []).map strip).filter (fun a => a ≠ [])

end Asm

namespace Mips

open Asm

/-- Register table of `mips_assembler.py` (`REGISTERS`). -/
def REGISTERS : Dict :=
  [(S "0", 0), (S "zero", 0), (S "at", 1), (S "v0", 2), (S "v1", 3),
   (S "a0", 4), (S "a1", 5), (S "a2", 6), (S "a3", 7),
   (S "t0", 8), (S "t1", 9), (S "t2", 10), (S "t3", 11), (S "t4", 12),
   (S "t5", 13), (S "t6", 14), (S "t7", 15),
   (S "s0", 16), (S "s1", 17), (S "s2", 18), (S "s3", 19), (S "s4", 20),
   (S "s5", 21), (S "s6", 22), (S "s7", 23),
   (S "t8", 24), (S "t9", 25), (S "k0", 26), (S "k1", 27), (S "gp", 28),
   (S "sp", 29), (S "fp", 30), (S "ra", 31)]

/-- R-type function codes (`R_TYPE`; opcode is always 0). -/
def R_TYPE : Dict :=
  [(S "add", 0x20), (S "sub", 0x22), (S "and", 0x24), (S "or", 0x25),
   (S "xor", 0x26), (S "nor", 0x27), (S "slt", 0x2a), (S "sll", 0x00),
   (S "srl", 0x02), (S "sra", 0x03), (S "jr", 0x08), (S "jalr", 0x09)]

/-- I-type and J-type opcodes (`OPCODES`). -/
def OPCODES : Dict :=
  [(S "addi", 0x08), (S "slti", 0x0a), (S "andi", 0x0c), (S "ori", 0x0d),
   (S "xori", 0x0e), (S "lui", 0x0f),
   (S "beq", 0x04), (S "blez", 0x06), (S "bltz", 0x01),
   (S "j", 0x02), (S "jal", 0x03),
   (S "lb", 0x20), (S "lh", 0x21), (S "lw", 0x23), (S "sb", 0x28),
   (S "sh", 0x29), (S "sw", 0x2b)]

/-- `parse_reg`: strip `$` and `,`, look the name up in `REGISTERS`,
otherwise parse a base-10 integer. -/
def parse_reg (s : Str) : Option Int :=
  let r := strip (s.filter (fun c => c ≠ '$' ∧ c ≠ ','))
  match dget REGISTERS r with
  | some v => some v
  | none => parseInt10 r

/-- One iteration of the `preprocess` loop: strip the comment and
whitespace, record an optional label at the current instruction count,
expand the pseudo-instructions (`nop`, `li`, `mv`, `not`, `neg`), append
everything else verbatim.  A `ValueError` (tuple unpacking of `split(',', 1)`
or an unparseable `int(..., 0)`) aborts the run. -/
def lineStep (acc : List Stmt × Dict) (raw : Str) : Except Unit (List Stmt × Dict) :=
  let clean := acc.1
  let labels := acc.2
  let line0 := strip (takeUntil '#' raw)
  if line0 = [] then .ok acc else
  let st := labelSplit labels (clean.length : Int) line0
  let labels := st.1
  let line := st.2
  if line = [] then .ok (clean, labels) else
  let parts := splitWs1 line
  let mnemonic := toLowerStr parts.1
  let args := parts.2.getD []
  if mnemonic = S "nop" then
    .ok (clean ++ [⟨S "addi", S "$0, $0, 0"⟩], labels)
  else if mnemonic = S "li" then
    match splitOnce ',' args with
    | none => .error ()
    | some (reg, valS) =>
      match parseInt0 (strip valS) with
      | none => .error ()
      | some v =>
        if -32768 ≤ v ∧ v ≤ 32767 then
          .ok (clean ++ [⟨S "addi", reg ++ S ", $0, " ++ pyStr v⟩], labels)
        else
          let upper := (v / 65536) % 65536
          let lower := v % 65536
          let tail :=
            if lower ≠ 0 then
              [(⟨S "ori", reg ++ S ", " ++ reg ++ S ", " ++ pyStr lower⟩ : Stmt)]
            else []
          .ok (clean ++ [⟨S "lui", reg ++ S ", " ++ pyStr upper⟩] ++ tail, labels)
  else if mnemonic = S "mv" then
    match splitOnce ',' args with
    | none => .error ()
    | some (rd, rs) => .ok (clean ++ [⟨S "addi", rd ++ S ", " ++ rs ++ S ", 0"⟩], labels)
  else if mnemonic = S "not" then
    match splitOnce ',' args with
    | none => .error ()
    | some (rd, rs) => .ok (clean ++ [⟨S "nor", rd ++ S ", " ++ rs ++ S ", $0"⟩], labels)
  else if mnemonic = S "neg" then
    match splitOnce ',' args with
    | none => .error ()
    | some (rd, rs) => .ok (clean ++ [⟨S "sub", rd ++ S ", $0, " ++ rs⟩], labels)
  else
    .ok (clean ++ [⟨mnemonic, args⟩], labels)

/-- `MIPSAssembler.preprocess`. -/
def preprocess (lines : List Str) : Except Unit (List Stmt × Dict) :=
  lines.foldlM lineStep ([], [])

/-- The R-format word `(0 << 26) | (rs << 21) | (rt << 16) | (rd << 11) |
(sa << 6) | funct` (the opcode of every R-type instruction is 0). -/
def rWord (rs rt rd sa funct : Int) : Int :=
  Int.lor (Int.lor (Int.lor (Int.lor (Int.lor (0 * 2 ^ 26) (rs * 2 ^ 21))
    (rt * 2 ^ 16)) (rd * 2 ^ 11)) (sa * 2 ^ 6)) funct

/-- The I-format word `(opcode << 26) | (rs << 21) | (rt << 16) |
(imm & 0xFFFF)`. -/
def iWord (opcode rs rt imm : Int) : Int :=
  Int.lor (Int.lor (Int.lor (opcode * 2 ^ 26) (rs * 2 ^ 21)) (rt * 2 ^ 16))
    (imm % 0x10000)

/-- The J-format word `(opcode << 26) | (target & 0x03FFFFFF)`. -/
def jWord (opcode target : Int) : Int :=
  Int.lor (opcode * 2 ^ 26) (target % 0x4000000)

/-- `self.labels[x] if x in self.labels else int(x, 0)`. -/
def resolve (labels : Dict) (tok : Str) : Except Unit Int :=
  match dget labels tok with
  | some v => .ok v
  | none => req (parseInt0 tok)

/-- The memory-operand pattern `re.search(r'(-?\d+)\((\$\w+)\)', s)`,
attempted at one position: an optional minus sign, decimal digits, `(`,
`$`, word characters, `)`; returns the two groups. -/
def memMatchAt (s : Str) : Option (Str × Str) :=
  let sg := match s with
    | '-' :: r => (['-'], r)
    | _ => (([] : Str), s)
  let ds := sg.2.takeWhile (fun c => '0' ≤ c ∧ c ≤ '9')
  let s2 := sg.2.drop ds.length
  if ds = [] then none else
  match s2 with
  | '(' :: '$' :: r2 =>
    let w := r2.takeWhile (fun c => c.isAlphanum ∨ c = '_')
    let r3 := r2.drop w.length
    if w = [] then none else
    match r3 with
    | ')' :: _ => some (sg.1 ++ ds, '$' :: w)
    | _ => none
  | _ => none

/-- `re.search`: try the pattern at every position, leftmost match wins
(`none` models the `AttributeError` of calling `.group` on `None`). -/
def memSearch : Str → Option (Str × Str)
  | [] => none
  | c :: rest =>
    match memMatchAt (c :: rest) with
    | some r => some r
    | none => memSearch rest

/-- The lookahead class of the MIPS operand splitter `(?=\$)`. -/
def la (c : Char) : Bool := c = '$'

/-- One iteration of the encoding loop of `MIPSAssembler.assemble` for the
statement at index `i`: dispatch on the mnemonic (R-type first, then
`j`/`jal`, then the remaining `OPCODES`), parse the operands, and build the
machine word.  A mnemonic in none of the tables leaves `machine_code = 0`
and the zero word is appended.  Any exception aborts the run
(`sys.exit(1)`). -/
def encode (labels : Dict) (i : Nat) (st : Stmt) : Except Unit Int := do
  let args := split_args la st.args
  let m := st.mnemonic
  match dget R_TYPE m with
  | some funct =>
    if m = S "sll" ∨ m = S "srl" ∨ m = S "sra" then do
      let rd ← req (parse_reg (← req (args.get? 0)))
      let rt ← req (parse_reg (← req (args.get? 1)))
      let sa ← req (parseInt0 (← req (args.get? 2)))
      .ok (rWord 0 rt rd sa funct)
    else if m = S "jr" then do
      let rs ← req (parse_reg (← req (args.get? 0)))
      .ok (rWord rs 0 0 0 funct)
    else if m = S "jalr" then do
      let rd ← if args.length > 1 then req (parse_reg (← req (args.get? 0))) else .ok 31
      let rs ← if args.length > 1 then req (parse_reg (← req (args.get? 1)))
               else req (parse_reg (← req (args.get? 0)))
      .ok (rWord rs 0 rd 0 funct)
    else do
      let rd ← req (parse_reg (← req (args.get? 0)))
      let rs ← req (parse_reg (← req (args.get? 1)))
      let rt ← req (parse_reg (← req (args.get? 2)))
      .ok (rWord rs rt rd 0 funct)
  | none =>
    if m = S "j" ∨ m = S "jal" then do
      let opcode ← req (dget OPCODES m)
      let target ← resolve labels (← req (args.get? 0))
      .ok (jWord opcode target)
    else
      match dget OPCODES m with
      | some opcode =>
        if m = S "beq" then do
          let rs ← req (parse_reg (← req (args.get? 0)))
          let rt ← req (parse_reg (← req (args.get? 1)))
          let target ← resolve labels (← req (args.get? 2))
          let offset := target - ((i : Int) + 1)
          .ok (iWord opcode rs rt offset)
        else if m = S "blez" ∨ m = S "bltz" then do
          let rs ← req (parse_reg (← req (args.get? 0)))
          let rt : Int := 0
          let target ← resolve labels (← req (args.get? 1))
          let offset := target - ((i : Int) + 1)
          .ok (iWord opcode rs rt offset)
        else if m = S "lw" ∨ m = S "sw" ∨ m = S "lb" ∨ m = S "sb" ∨
            m = S "lh" ∨ m = S "sh" then do
          let rt ← req (parse_reg (← req (args.get? 0)))
          let mtch ← req (memSearch (← req (args.get? 1)))
          let imm ← req (parseInt0 mtch.1)
          let rs ← req (parse_reg mtch.2)
          .ok (iWord opcode rs rt imm)
        else if m = S "lui" then do
          let rt ← req (parse_reg (← req (args.get? 0)))
          let imm ← req (parseInt0 (← req (args.get? 1)))
          .ok (iWord opcode 0 rt imm)
        else do
          let rt ← req (parse_reg (← req (args.get? 0)))
          let rs ← req (parse_reg (← req (args.get? 1)))
          let imm ← req (parseInt0 (← req (args.get? 2)))
          .ok (iWord opcode rs rt imm)
      | none => .ok 0

/-- The encoding loop (`for i, (mnemonic, args_str) in enumerate(code_lines)`). -/
def pass2 (labels : Dict) : Nat → List Stmt → Except Unit (List Int)
  | _, [] => .ok []
  | i, st :: rest => do
    let w ← encode labels i st
    let ws ← pass2 labels (i + 1) rest
    .ok (w :: ws)

/-- `MIPSAssembler.assemble` on the list of source lines: preprocess, then
encode each canonical instruction in order. -/
def assemble (lines : List Str) : Except Unit (List Int) := do
  let p ← preprocess lines
  pass2 p.2 0 p.1

end Mips

namespace Riscv

open Asm

/-- Encoding metadata of one mnemonic (the per-mnemonic `dict`s of
`riscv_assembler.py`; absent keys are `none`). -/
structure RVInfo where
  op : Int
  f3 : Option Int := none
  f7 : Option Int := none
deriving DecidableEq, Repr

/-- `OPCODES` of `riscv_assembler.py`. -/
def OPCODES : List (Str × RVInfo) :=
  [(S "add", ⟨0x33, some 0x0, some 0x00⟩),
   (S "sub", ⟨0x33, some 0x0, some 0x20⟩),
   (S "sll", ⟨0x33, some 0x1, some 0x00⟩),
   (S "slt", ⟨0x33, some 0x2, some 0x00⟩),
   (S "sltu", ⟨0x33, some 0x3, some 0x00⟩),
   (S "xor", ⟨0x33, some 0x4, some 0x00⟩),
   (S "srl", ⟨0x33, some 0x5, some 0x00⟩),
   (S "sra", ⟨0x33, some 0x5, some 0x20⟩),
   (S "or", ⟨0x33, some 0x6, some 0x00⟩),
   (S "and", ⟨0x33, some 0x7, some 0x00⟩),
   (S "addi", ⟨0x13, some 0x0, none⟩),
   (S "slti", ⟨0x13, some 0x2, none⟩),
   (S "andi", ⟨0x13, some 0x7, none⟩),
   (S "ori", ⟨0x13, some 0x6, none⟩),
   (S "xori", ⟨0x13, some 0x4, none⟩),
   (S "lw", ⟨0x03, some 0x2, none⟩),
   (S "lb", ⟨0x03, some 0x0, none⟩),
   (S "lh", ⟨0x03, some 0x1, none⟩),
   (S "jalr", ⟨0x67, some 0x0, none⟩),
   (S "sw", ⟨0x23, some 0x2, none⟩),
   (S "sb", ⟨0x23, some 0x0, none⟩),
   (S "sh", ⟨0x23, some 0x1, none⟩),
   (S "beq", ⟨0x63, some 0x0, none⟩),
   (S "bne", ⟨0x63, some 0x1, none⟩),
   (S "blt", ⟨0x63, some 0x4, none⟩),
   (S "bge", ⟨0x63, some 0x5, none⟩),
   (S "lui", ⟨0x37, none, none⟩),
   (S "auipc", ⟨0x17, none, none⟩),
   (S "jal", ⟨0x6f, none, none⟩)]

/-- Lookup in `OPCODES` (`KeyError` on a missing mnemonic aborts the run). -/
def oget : List (Str × RVInfo) → Str → Option RVInfo
  | [], _ => none
  | (k', v) :: rest, k => if k' = k then some v else oget rest k

/-- `REGS`: ABI names followed by the loop adding `x0`…`x31`. -/
def REGS : Dict :=
  [(S "zero", 0), (S "ra", 1), (S "sp", 2), (S "gp", 3), (S "tp", 4),
   (S "t0", 5), (S "t1", 6), (S "t2", 7),
   (S "s0", 8), (S "fp", 8), (S "s1", 9), (S "a0", 10), (S "a1", 11),
   (S "a2", 12), (S "a3", 13), (S "a4", 14), (S "a5", 15), (S "a6", 16),
   (S "a7", 17), (S "s2", 18), (S "s3", 19), (S "s4", 20), (S "s5", 21),
   (S "s6", 22), (S "s7", 23), (S "s8", 24), (S "s9", 25), (S "s10", 26),
   (S "s11", 27), (S "t3", 28), (S "t4", 29), (S "t5", 30), (S "t6", 31)]
  ++ (List.range 32).map (fun i => ('x' :: Nat.toDigits 10 i, (i : Int)))

/-- `parse_reg`: strip `,` and `$`, look the name up in `REGS`, otherwise
parse `int(s.replace('x', ''))`. -/
def parse_reg (s : Str) : Option Int :=
  let r := strip (s.filter (fun c => c ≠ ',' ∧ c ≠ '$'))
  match dget REGS r with
  | some v => some v
  | none => parseInt10 (r.filter (fun c => c ≠ 'x'))

/-- `get_bits(val, high, low)`: `(val >> low) & ((1 << (high - low + 1)) - 1)`. -/
def get_bits (val : Int) (high low : Nat) : Int :=
  (val / 2 ^ low) % 2 ^ (high - low + 1)

/-- The initial comprehension
`[l.split('#')[0].strip() for l in f if l.split('#')[0].strip()]`. -/
def cleanLines (raw : List Str) : List Str :=
  (raw.map (fun l => strip (takeUntil '#' l))).filter (fun l => l ≠ [])

/-- One iteration of pass 1: record an optional label at the current `pc`,
expand the pseudo-instructions (`nop`, `li`, `mv`, `not`, `neg`, `j`),
append everything else verbatim, advancing `pc` by 4 per emitted
instruction. -/
def lineStep (acc : List Stmt × Dict × Int) (line0 : Str) :
    Except Unit (List Stmt × Dict × Int) :=
  let processed := acc.1
  let labels := acc.2.1
  let pc := acc.2.2
  let st := labelSplit labels pc line0
  let labels := st.1
  let line := st.2
  if line = [] then .ok (processed, labels, pc) else
  let parts := splitWs1 line
  let op := toLowerStr parts.1
  let args := parts.2.getD []
  if op = S "nop" then
    .ok (processed ++ [⟨S "addi", S "x0, x0, 0"⟩], labels, pc + 4)
  else if op = S "li" then
    match splitOnce ',' args with
    | none => .error ()
    | some (rd, immS) =>
      match parseInt0 (strip immS) with
      | none => .error ()
      | some imm =>
        let upper := (imm + 0x800) / 0x1000
        let lower := imm % 0x1000
        .ok (processed ++ [⟨S "lui", rd ++ S ", " ++ pyStr upper⟩,
          ⟨S "addi", rd ++ S ", " ++ rd ++ S ", " ++ pyStr lower⟩], labels, pc + 8)
  else if op = S "mv" then
    match splitOnce ',' args with
    | none => .error ()
    | some (rd, rs) =>
      .ok (processed ++ [⟨S "addi", rd ++ S ", " ++ rs ++ S ", 0"⟩], labels, pc + 4)
  else if op = S "not" then
    match splitOnce ',' args with
    | none => .error ()
    | some (rd, rs) =>
      .ok (processed ++ [⟨S "xori", rd ++ S ", " ++ rs ++ S ", -1"⟩], labels, pc + 4)
  else if op = S "neg" then
    match splitOnce ',' args with
    | none => .error ()
    | some (rd, rs) =>
      .ok (processed ++ [⟨S "sub", rd ++ S ", x0, " ++ rs⟩], labels, pc + 4)
  else if op = S "j" then
    .ok (processed ++ [⟨S "jal", S "x0, " ++ args⟩], labels, pc + 4)
  else
    .ok (processed ++ [⟨op, args⟩], labels, pc + 4)

/-- Pass 1 of `RISCVAssembler.assemble`. -/
def pass1 (raw : List Str) : Except Unit (List Stmt × Dict × Int) :=
  (cleanLines raw).foldlM lineStep ([], [], 0)

/-- R-format word: `(f7 << 25) | (rs2 << 20) | (rs1 << 15) | (f3 << 12) |
(rd << 7) | op`. -/
def rWord (f7 rs2 rs1 f3 rd op : Int) : Int :=
  Int.lor (Int.lor (Int.lor (Int.lor (Int.lor (f7 * 2 ^ 25) (rs2 * 2 ^ 20))
    (rs1 * 2 ^ 15)) (f3 * 2 ^ 12)) (rd * 2 ^ 7)) op

/-- I-format word: `((imm & 0xFFF) << 20) | (rs1 << 15) | (f3 << 12) |
(rd << 7) | op`. -/
def iWord (imm rs1 f3 rd op : Int) : Int :=
  Int.lor (Int.lor (Int.lor (Int.lor ((imm % 0x1000) * 2 ^ 20) (rs1 * 2 ^ 15))
    (f3 * 2 ^ 12)) (rd * 2 ^ 7)) op

/-- S-format word: the immediate is split into `imm[11:5]` and `imm[4:0]`. -/
def sWord (imm rs2 rs1 f3 op : Int) : Int :=
  let imm_11_5 := get_bits imm 11 5
  let imm_4_0 := get_bits imm 4 0
  Int.lor (Int.lor (Int.lor (Int.lor (Int.lor (imm_11_5 * 2 ^ 25) (rs2 * 2 ^ 20))
    (rs1 * 2 ^ 15)) (f3 * 2 ^ 12)) (imm_4_0 * 2 ^ 7)) op

/-- B-format word: offset bits scrambled as `[31]=12, [30:25]=10:5,
[11:8]=4:1, [7]=11`. -/
def bWord (off rs2 rs1 f3 op : Int) : Int :=
  let b12 := get_bits off 12 12
  let b11 := get_bits off 11 11
  let b10_5 := get_bits off 10 5
  let b4_1 := get_bits off 4 1
  Int.lor (Int.lor (Int.lor (Int.lor (Int.lor (Int.lor (Int.lor
    (b12 * 2 ^ 31) (b10_5 * 2 ^ 25)) (rs2 * 2 ^ 20)) (rs1 * 2 ^ 15))
    (f3 * 2 ^ 12)) (b4_1 * 2 ^ 8)) (b11 * 2 ^ 7)) op

/-- U-format word: `((imm & 0xFFFFF) << 12) | (rd << 7) | op`. -/
def uWord (imm rd op : Int) : Int :=
  Int.lor (Int.lor ((imm % 0x100000) * 2 ^ 12) (rd * 2 ^ 7)) op

/-- J-format word: offset bits scrambled as `[31]=20, [30:21]=10:1,
[20]=11, [19:12]=19:12`. -/
def jWord (off rd op : Int) : Int :=
  let j20 := get_bits off 20 20
  let j19_12 := get_bits off 19 12
  let j11 := get_bits off 11 11
  let j10_1 := get_bits off 10 1
  Int.lor (Int.lor (Int.lor (Int.lor (Int.lor (j20 * 2 ^ 31) (j10_1 * 2 ^ 21))
    (j11 * 2 ^ 20)) (j19_12 * 2 ^ 12)) (rd * 2 ^ 7)) op

/-- `self.labels[x] if x in self.labels else int(x, 0)`. -/
def resolve (labels : Dict) (tok : Str) : Except Unit Int :=
  match dget labels tok with
  | some v => .ok v
  | none => req (parseInt0 tok)

/-- `args[1].split('(')` unpacked into exactly two parts (a second `(`
makes the 2-tuple unpacking raise `ValueError`). -/
def splitParen (s : Str) : Except Unit (Str × Str) :=
  match splitOnce '(' s with
  | none => .error ()
  | some (a, b) => if b.contains '(' then .error () else .ok (a, b)

/-- The lookahead class of the RISC-V operand splitter
`(?=x|a|t|s|z|r|f|g|p)`. -/
def la (c : Char) : Bool :=
  c = 'x' ∨ c = 'a' ∨ c = 't' ∨ c = 's' ∨ c = 'z' ∨ c = 'r' ∨ c = 'f' ∨
    c = 'g' ∨ c = 'p'

/-- One iteration of pass 2 of `RISCVAssembler.assemble` at program counter
`pc`: look the mnemonic up in `OPCODES` (`KeyError` aborts), dispatch on
`info['op']`, parse the operands and build the machine word. -/
def encode (labels : Dict) (pc : Int) (st : Stmt) : Except Unit Int := do
  let args := split_args la st.args
  let info ← req (oget OPCODES st.mnemonic)
  if info.op = 0x33 then do
    let rd ← req (parse_reg (← req (args.get? 0)))
    let rs1 ← req (parse_reg (← req (args.get? 1)))
    let rs2 ← req (parse_reg (← req (args.get? 2)))
    let f7 ← req info.f7
    let f3 ← req info.f3
    .ok (rWord f7 rs2 rs1 f3 rd info.op)
  else if info.op = 0x13 ∨ info.op = 0x03 ∨ info.op = 0x67 then do
    let a1 ← req (args.get? 1)
    if a1.contains '(' then do
      let rd ← req (parse_reg (← req (args.get? 0)))
      let p ← splitParen a1
      let imm ← req (parseInt0 p.1)
      let rs1 ← req (parse_reg (p.2.filter (fun c => c ≠ ')')))
      .ok (iWord imm rs1 (info.f3.getD 0) rd info.op)
    else do
      let rd ← req (parse_reg (← req (args.get? 0)))
      let rs1 ← req (parse_reg a1)
      let imm ← req (parseInt0 (← req (args.get? 2)))
      .ok (iWord imm rs1 (info.f3.getD 0) rd info.op)
  else if info.op = 0x23 then do
    let rs2 ← req (parse_reg (← req (args.get? 0)))
    let p ← splitParen (← req (args.get? 1))
    let imm ← req (parseInt0 p.1)
    let rs1 ← req (parse_reg (p.2.filter (fun c => c ≠ ')')))
    let f3 ← req info.f3
    .ok (sWord imm rs2 rs1 f3 info.op)
  else if info.op = 0x63 then do
    let rs1 ← req (parse_reg (← req (args.get? 0)))
    let rs2 ← req (parse_reg (← req (args.get? 1)))
    let target ← resolve labels (← req (args.get? 2))
    let off := target - pc
    let f3 ← req info.f3
    .ok (bWord off rs2 rs1 f3 info.op)
  else if info.op = 0x37 ∨ info.op = 0x17 then do
    let rd ← req (parse_reg (← req (args.get? 0)))
    let imm ← req (parseInt0 (← req (args.get? 1)))
    .ok (uWord imm rd info.op)
  else if info.op = 0x6f then do
    let rd ← req (parse_reg (← req (args.get? 0)))
    let target ← resolve labels (← req (args.get? 1))
    let off := target - pc
    .ok (jWord off rd info.op)
  else
    .ok 0

/-- Pass 2: each appended word is `code & 0xFFFFFFFF`, and `pc` advances by
4 per instruction. -/
def pass2 (labels : Dict) : Int → List Stmt → Except Unit (List Int)
  | _, [] => .ok []
  | pc, st :: rest => do
    let w ← encode labels pc st
    let ws ← pass2 labels (pc + 4) rest
    .ok (w % 0x100000000 :: ws)

/-- `RISCVAssembler.assemble` on the list of source lines. -/
def assemble (raw : List Str) : Except Unit (List Int) := do
  let p ← pass1 raw
  pass2 p.2.1 0 p.1

end Riscv

namespace Asm

theorem nat_lor_eq_add (k a b : Nat) (h : 2 ^ k ∣ a) (hb : b < 2 ^ k) :
    a ||| b = a + b := by
  obtain ⟨m, rfl⟩ := h
  apply Nat.eq_of_testBit_eq
  intro j
  rw [Nat.testBit_lor, Nat.testBit_mul_pow_two_add m hb j]
  rcases Nat.lt_or_ge j k with hj | hj
  · have h2 : (2 ^ k * m).testBit j = false := by
      rw [Nat.testBit_mul_pow_two]
      simp [Nat.not_le.mpr hj]
    simp [h2, hj]
  · have h3 : b.testBit j = false :=
      Nat.testBit_lt_two_pow (lt_of_lt_of_le hb (Nat.pow_le_pow_right (by norm_num) hj))
    have h2 : (2 ^ k * m).testBit j = (m.testBit (j - k)) := by
      rw [Nat.testBit_mul_pow_two]
      simp [hj]
    simp [h2, h3, Nat.not_lt.mpr hj]

/-- Bitwise or of disjoint nonnegative values is addition: the glue between
the source's `|`-assembled words and plain arithmetic. -/
theorem int_lor_eq_add (k : Nat) (a b : Int) (ha : 0 ≤ a) (hb : 0 ≤ b)
    (hd : (2 : Int) ^ k ∣ a) (hbk : b < 2 ^ k) : Int.lor a b = a + b := by
  lift a to ℕ using ha
  lift b to ℕ using hb
  have h1 : Int.lor (a : Int) (b : Int) = ((a ||| b : ℕ) : ℤ) := rfl
  rw [h1, nat_lor_eq_add k a b]
  · push_cast; ring
  · have h2 : ((2 : ℤ) ^ k) = ((2 ^ k : ℕ) : ℤ) := by push_cast; ring
    rw [h2] at hd
    exact_mod_cast hd
  · exact_mod_cast hbk

end Asm

namespace Mips

open Asm

/-- Arithmetic form of the R-format word for in-range fields. -/
theorem rWord_sum_mips (rs rt rd sa funct : Int)
    (hrs : 0 ≤ rs ∧ rs < 32) (hrt : 0 ≤ rt ∧ rt < 32) (hrd : 0 ≤ rd ∧ rd < 32)
    (hsa : 0 ≤ sa ∧ sa < 32) (hf : 0 ≤ funct ∧ funct < 64) :
    rWord rs rt rd sa funct =
      rs * 2 ^ 21 + rt * 2 ^ 16 + rd * 2 ^ 11 + sa * 2 ^ 6 + funct := by
  unfold rWord
  rw [int_lor_eq_add 26 (0 * 2 ^ 26) (rs * 2 ^ 21) (by omega) (by omega) (by omega) (by omega)]
  rw [int_lor_eq_add 21 _ (rt * 2 ^ 16) (by omega) (by omega) (by omega) (by omega)]
  rw [int_lor_eq_add 16 _ (rd * 2 ^ 11) (by omega) (by omega) (by omega) (by omega)]
  rw [int_lor_eq_add 11 _ (sa * 2 ^ 6) (by omega) (by omega) (by omega) (by omega)]
  rw [int_lor_eq_add 6 _ funct (by omega) (by omega) (by omega) (by omega)]
  ring

/-- Arithmetic form of the I-format word: the immediate contributes exactly
its low 16 bits, whatever integer it is. -/
theorem iWord_sum_mips (opcode rs rt imm : Int)
    (hop : 0 ≤ opcode ∧ opcode < 64) (hrs : 0 ≤ rs ∧ rs < 32)
    (hrt : 0 ≤ rt ∧ rt < 32) :
    iWord opcode rs rt imm =
      opcode * 2 ^ 26 + rs * 2 ^ 21 + rt * 2 ^ 16 + imm % 65536 := by
  unfold iWord
  rw [int_lor_eq_add 26 (opcode * 2 ^ 26) (rs * 2 ^ 21) (by omega) (by omega) (by omega) (by omega)]
  rw [int_lor_eq_add 21 _ (rt * 2 ^ 16) (by omega) (by omega) (by omega) (by omega)]
  rw [int_lor_eq_add 16 _ (imm % 0x10000) (by omega) (by omega) (by omega) (by omega)]

/-- Arithmetic form of the J-format word. -/
theorem jWord_sum_mips (opcode target : Int) (hop : 0 ≤ opcode ∧ opcode < 64) :
    jWord opcode target = opcode * 2 ^ 26 + target % 0x4000000 := by
  unfold jWord
  rw [int_lor_eq_add 26 (opcode * 2 ^ 26) (target % 0x4000000) (by omega) (by omega) (by omega)
    (by omega)]

end Mips

namespace Riscv

open Asm

/-- Arithmetic form of the R-format word for in-range fields. -/
theorem rWord_sum_rv (f7 rs2 rs1 f3 rd op : Int)
    (h7 : 0 ≤ f7 ∧ f7 < 128) (h2' : 0 ≤ rs2 ∧ rs2 < 32) (h1' : 0 ≤ rs1 ∧ rs1 < 32)
    (h3 : 0 ≤ f3 ∧ f3 < 8) (hrd : 0 ≤ rd ∧ rd < 32) (hop : 0 ≤ op ∧ op < 128) :
    rWord f7 rs2 rs1 f3 rd op =
      f7 * 2 ^ 25 + rs2 * 2 ^ 20 + rs1 * 2 ^ 15 + f3 * 2 ^ 12 + rd * 2 ^ 7 + op := by
  unfold rWord
  rw [int_lor_eq_add 25 (f7 * 2 ^ 25) (rs2 * 2 ^ 20) (by omega) (by omega) (by omega) (by omega)]
  rw [int_lor_eq_add 20 _ (rs1 * 2 ^ 15) (by omega) (by omega) (by omega) (by omega)]
  rw [int_lor_eq_add 15 _ (f3 * 2 ^ 12) (by omega) (by omega) (by omega) (by omega)]
  rw [int_lor_eq_add 12 _ (rd * 2 ^ 7) (by omega) (by omega) (by omega) (by omega)]
  rw [int_lor_eq_add 7 _ op (by omega) (by omega) (by omega) (by omega)]

/-- Arithmetic form of the I-format word: the immediate contributes exactly
its low 12 bits, whatever integer it is. -/
theorem iWord_sum_rv (imm rs1 f3 rd op : Int)
    (h1' : 0 ≤ rs1 ∧ rs1 < 32) (h3 : 0 ≤ f3 ∧ f3 < 8) (hrd : 0 ≤ rd ∧ rd < 32)
    (hop : 0 ≤ op ∧ op < 128) :
    iWord imm rs1 f3 rd op =
      imm % 4096 * 2 ^ 20 + rs1 * 2 ^ 15 + f3 * 2 ^ 12 + rd * 2 ^ 7 + op := by
  unfold iWord
  rw [int_lor_eq_add 20 (imm % 0x1000 * 2 ^ 20) (rs1 * 2 ^ 15) (by omega) (by omega) (by omega)
    (by omega)]
  rw [int_lor_eq_add 15 _ (f3 * 2 ^ 12) (by omega) (by omega) (by omega) (by omega)]
  rw [int_lor_eq_add 12 _ (rd * 2 ^ 7) (by omega) (by omega) (by omega) (by omega)]
  rw [int_lor_eq_add 7 _ op (by omega) (by omega) (by omega) (by omega)]

/-- Arithmetic form of the S-format word: the split immediate subfields. -/
theorem sWord_sum (imm rs2 rs1 f3 op : Int)
    (h2' : 0 ≤ rs2 ∧ rs2 < 32) (h1' : 0 ≤ rs1 ∧ rs1 < 32) (h3 : 0 ≤ f3 ∧ f3 < 8)
    (hop : 0 ≤ op ∧ op < 128) :
    sWord imm rs2 rs1 f3 op =
      (imm / 32) % 128 * 2 ^ 25 + rs2 * 2 ^ 20 + rs1 * 2 ^ 15 + f3 * 2 ^ 12 +
        imm % 32 * 2 ^ 7 + op := by
  unfold sWord get_bits
  norm_num
  rw [int_lor_eq_add 25 (imm / 32 % 128 * 33554432) (rs2 * 1048576) (by omega) (by omega)
    (by omega) (by omega)]
  rw [int_lor_eq_add 20 _ (rs1 * 32768) (by omega) (by omega) (by omega) (by omega)]
  rw [int_lor_eq_add 15 _ (f3 * 4096) (by omega) (by omega) (by omega) (by omega)]
  rw [int_lor_eq_add 12 _ (imm % 32 * 128) (by omega) (by omega) (by omega) (by omega)]
  rw [int_lor_eq_add 7 _ op (by omega) (by omega) (by omega) (by omega)]

/-- Arithmetic form of the B-format word: the scrambled offset bits. -/
theorem bWord_sum (off rs2 rs1 f3 op : Int)
    (h2' : 0 ≤ rs2 ∧ rs2 < 32) (h1' : 0 ≤ rs1 ∧ rs1 < 32) (h3 : 0 ≤ f3 ∧ f3 < 8)
    (hop : 0 ≤ op ∧ op < 128) :
    bWord off rs2 rs1 f3 op =
      (off / 4096) % 2 * 2 ^ 31 + (off / 32) % 64 * 2 ^ 25 + rs2 * 2 ^ 20 +
        rs1 * 2 ^ 15 + f3 * 2 ^ 12 + (off / 2) % 16 * 2 ^ 8 +
        (off / 2048) % 2 * 2 ^ 7 + op := by
  unfold bWord get_bits
  norm_num
  rw [int_lor_eq_add 31 (off / 4096 % 2 * 2147483648) (off / 32 % 64 * 33554432) (by omega)
    (by omega) (by omega) (by omega)]
  rw [int_lor_eq_add 25 _ (rs2 * 1048576) (by omega) (by omega) (by omega) (by omega)]
  rw [int_lor_eq_add 20 _ (rs1 * 32768) (by omega) (by omega) (by omega) (by omega)]
  rw [int_lor_eq_add 15 _ (f3 * 4096) (by omega) (by omega) (by omega) (by omega)]
  rw [int_lor_eq_add 12 _ (off / 2 % 16 * 256) (by omega) (by omega) (by omega) (by omega)]
  rw [int_lor_eq_add 8 _ (off / 2048 % 2 * 128) (by omega) (by omega) (by omega) (by omega)]
  rw [int_lor_eq_add 7 _ op (by omega) (by omega) (by omega) (by omega)]

/-- Arithmetic form of the U-format word. -/
theorem uWord_sum (imm rd op : Int) (hrd : 0 ≤ rd ∧ rd < 32) (hop : 0 ≤ op ∧ op < 128) :
    uWord imm rd op = imm % 0x100000 * 2 ^ 12 + rd * 2 ^ 7 + op := by
  unfold uWord
  rw [int_lor_eq_add 12 (imm % 0x100000 * 2 ^ 12) (rd * 2 ^ 7) (by omega) (by omega) (by omega)
    (by omega)]
  rw [int_lor_eq_add 7 _ op (by omega) (by omega) (by omega) (by omega)]

/-- Arithmetic form of the J-format word: the scrambled offset bits. -/
theorem jWord_sum_rv (off rd op : Int) (hrd : 0 ≤ rd ∧ rd < 32) (hop : 0 ≤ op ∧ op < 128) :
    jWord off rd op =
      (off / 2 ^ 20) % 2 * 2 ^ 31 + (off / 2) % 2 ^ 10 * 2 ^ 21 +
        (off / 2 ^ 11) % 2 * 2 ^ 20 + (off / 2 ^ 12) % 2 ^ 8 * 2 ^ 12 +
        rd * 2 ^ 7 + op := by
  unfold jWord get_bits
  norm_num
  rw [int_lor_eq_add 31 (off / 1048576 % 2 * 2147483648) (off / 2 % 1024 * 2097152) (by omega)
    (by omega) (by omega) (by omega)]
  rw [int_lor_eq_add 21 _ (off / 2048 % 2 * 1048576) (by omega) (by omega) (by omega) (by omega)]
  rw [int_lor_eq_add 20 _ (off / 4096 % 256 * 4096) (by omega) (by omega) (by omega) (by omega)]
  rw [int_lor_eq_add 12 _ (rd * 128) (by omega) (by omega) (by omega) (by omega)]
  rw [int_lor_eq_add 7 _ op (by omega) (by omega) (by omega) (by omega)]

end Riscv

namespace Asm

/-- Sign-decode a `bits`-wide two's-complement field: the spec-side reading
of an encoded offset field. -/
def sdec (bits : Nat) (v : Int) : Int :=
  if v < 2 ^ (bits - 1) then v else v - 2 ^ bits

/-- Field extraction from an S-format sum with abstracted subfields. -/
theorem sW_extract (hi r2 r1 f3 lo op : Int)
    (h1 : 0 ≤ hi ∧ hi < 128) (h2 : 0 ≤ r2 ∧ r2 < 32) (h3 : 0 ≤ r1 ∧ r1 < 32)
    (h4 : 0 ≤ f3 ∧ f3 < 8) (h5 : 0 ≤ lo ∧ lo < 32) (h6 : 0 ≤ op ∧ op < 128) :
    (hi * 33554432 + r2 * 1048576 + r1 * 32768 + f3 * 4096 + lo * 128 + op) /
        33554432 % 128 = hi ∧
    (hi * 33554432 + r2 * 1048576 + r1 * 32768 + f3 * 4096 + lo * 128 + op) /
        1048576 % 32 = r2 ∧
    (hi * 33554432 + r2 * 1048576 + r1 * 32768 + f3 * 4096 + lo * 128 + op) /
        32768 % 32 = r1 ∧
    (hi * 33554432 + r2 * 1048576 + r1 * 32768 + f3 * 4096 + lo * 128 + op) /
        4096 % 8 = f3 ∧
    (hi * 33554432 + r2 * 1048576 + r1 * 32768 + f3 * 4096 + lo * 128 + op) /
        128 % 32 = lo ∧
    (hi * 33554432 + r2 * 1048576 + r1 * 32768 + f3 * 4096 + lo * 128 + op) %
        128 = op := by
  omega

/-- Field extraction from a B-format sum with abstracted subfields. -/
theorem bW_extract (b12 b10 r2 r1 f3 b4 b11 op : Int)
    (h1 : 0 ≤ b12 ∧ b12 < 2) (h2 : 0 ≤ b10 ∧ b10 < 64) (h3 : 0 ≤ r2 ∧ r2 < 32)
    (h4 : 0 ≤ r1 ∧ r1 < 32) (h5 : 0 ≤ f3 ∧ f3 < 8) (h6 : 0 ≤ b4 ∧ b4 < 16)
    (h7 : 0 ≤ b11 ∧ b11 < 2) (h8 : 0 ≤ op ∧ op < 128) :
    (b12 * 2147483648 + b10 * 33554432 + r2 * 1048576 + r1 * 32768 + f3 * 4096 +
        b4 * 256 + b11 * 128 + op) / 2147483648 % 2 = b12 ∧
    (b12 * 2147483648 + b10 * 33554432 + r2 * 1048576 + r1 * 32768 + f3 * 4096 +
        b4 * 256 + b11 * 128 + op) / 33554432 % 64 = b10 ∧
    (b12 * 2147483648 + b10 * 33554432 + r2 * 1048576 + r1 * 32768 + f3 * 4096 +
        b4 * 256 + b11 * 128 + op) / 1048576 % 32 = r2 ∧
    (b12 * 2147483648 + b10 * 33554432 + r2 * 1048576 + r1 * 32768 + f3 * 4096 +
        b4 * 256 + b11 * 128 + op) / 32768 % 32 = r1 ∧
    (b12 * 2147483648 + b10 * 33554432 + r2 * 1048576 + r1 * 32768 + f3 * 4096 +
        b4 * 256 + b11 * 128 + op) / 4096 % 8 = f3 ∧
    (b12 * 2147483648 + b10 * 33554432 + r2 * 1048576 + r1 * 32768 + f3 * 4096 +
        b4 * 256 + b11 * 128 + op) / 256 % 16 = b4 ∧
    (b12 * 2147483648 + b10 * 33554432 + r2 * 1048576 + r1 * 32768 + f3 * 4096 +
        b4 * 256 + b11 * 128 + op) / 128 % 2 = b11 ∧
    (b12 * 2147483648 + b10 * 33554432 + r2 * 1048576 + r1 * 32768 + f3 * 4096 +
        b4 * 256 + b11 * 128 + op) % 128 = op := by
  omega

/-- Field extraction from a J-format sum with abstracted subfields. -/
theorem jW_extract (j20 j10 j11 j19 rd op : Int)
    (h1 : 0 ≤ j20 ∧ j20 < 2) (h2 : 0 ≤ j10 ∧ j10 < 1024) (h3 : 0 ≤ j11 ∧ j11 < 2)
    (h4 : 0 ≤ j19 ∧ j19 < 256) (h5 : 0 ≤ rd ∧ rd < 32) (h6 : 0 ≤ op ∧ op < 128) :
    (j20 * 2147483648 + j10 * 2097152 + j11 * 1048576 + j19 * 4096 + rd * 128 + op) /
        2147483648 % 2 = j20 ∧
    (j20 * 2147483648 + j10 * 2097152 + j11 * 1048576 + j19 * 4096 + rd * 128 + op) /
        2097152 % 1024 = j10 ∧
    (j20 * 2147483648 + j10 * 2097152 + j11 * 1048576 + j19 * 4096 + rd * 128 + op) /
        1048576 % 2 = j11 ∧
    (j20 * 2147483648 + j10 * 2097152 + j11 * 1048576 + j19 * 4096 + rd * 128 + op) /
        4096 % 256 = j19 ∧
    (j20 * 2147483648 + j10 * 2097152 + j11 * 1048576 + j19 * 4096 + rd * 128 + op) /
        128 % 32 = rd ∧
    (j20 * 2147483648 + j10 * 2097152 + j11 * 1048576 + j19 * 4096 + rd * 128 + op) %
        128 = op := by
  omega

end Asm

open Asm

/-- **C9** (round-trip): for every supported instruction format and every
choice of in-range field values, packing the fields into a 32-bit word by the
encoder's layout and then extracting bits at the documented positions —
including RISC-V's split S-type immediate `[11:5]`/`[4:0]` and the scrambled
B-type (`[31]=12`, `[30:25]=10:5`, `[11:8]=4:1`, `[7]=11`) and J-type
(`[31]=20`, `[30:21]=10:1`, `[20]=11`, `[19:12]=19:12`) layouts — recovers
the original field values exactly.  The nine conjuncts cover MIPS R/I/J and
RISC-V R/I/S/B/U/J words. -/
theorem c9_format_roundtrip :
    (∀ rs rt rd sa funct : Int,
      (0 ≤ rs ∧ rs < 32) → (0 ≤ rt ∧ rt < 32) → (0 ≤ rd ∧ rd < 32) →
      (0 ≤ sa ∧ sa < 32) → (0 ≤ funct ∧ funct < 64) →
      Riscv.get_bits (Mips.rWord rs rt rd sa funct) 31 26 = 0 ∧
      Riscv.get_bits (Mips.rWord rs rt rd sa funct) 25 21 = rs ∧
      Riscv.get_bits (Mips.rWord rs rt rd sa funct) 20 16 = rt ∧
      Riscv.get_bits (Mips.rWord rs rt rd sa funct) 15 11 = rd ∧
      Riscv.get_bits (Mips.rWord rs rt rd sa funct) 10 6 = sa ∧
      Riscv.get_bits (Mips.rWord rs rt rd sa funct) 5 0 = funct) ∧
    (∀ opcode rs rt imm : Int,
      (0 ≤ opcode ∧ opcode < 64) → (0 ≤ rs ∧ rs < 32) → (0 ≤ rt ∧ rt < 32) →
      (0 ≤ imm ∧ imm < 65536) →
      Riscv.get_bits (Mips.iWord opcode rs rt imm) 31 26 = opcode ∧
      Riscv.get_bits (Mips.iWord opcode rs rt imm) 25 21 = rs ∧
      Riscv.get_bits (Mips.iWord opcode rs rt imm) 20 16 = rt ∧
      Riscv.get_bits (Mips.iWord opcode rs rt imm) 15 0 = imm) ∧
    (∀ opcode target : Int,
      (0 ≤ opcode ∧ opcode < 64) → (0 ≤ target ∧ target < 2 ^ 26) →
      Riscv.get_bits (Mips.jWord opcode target) 31 26 = opcode ∧
      Riscv.get_bits (Mips.jWord opcode target) 25 0 = target) ∧
    (∀ f7 rs2 rs1 f3 rd op : Int,
      (0 ≤ f7 ∧ f7 < 128) → (0 ≤ rs2 ∧ rs2 < 32) → (0 ≤ rs1 ∧ rs1 < 32) →
      (0 ≤ f3 ∧ f3 < 8) → (0 ≤ rd ∧ rd < 32) → (0 ≤ op ∧ op < 128) →
      Riscv.get_bits (Riscv.rWord f7 rs2 rs1 f3 rd op) 31 25 = f7 ∧
      Riscv.get_bits (Riscv.rWord f7 rs2 rs1 f3 rd op) 24 20 = rs2 ∧
      Riscv.get_bits (Riscv.rWord f7 rs2 rs1 f3 rd op) 19 15 = rs1 ∧
      Riscv.get_bits (Riscv.rWord f7 rs2 rs1 f3 rd op) 14 12 = f3 ∧
      Riscv.get_bits (Riscv.rWord f7 rs2 rs1 f3 rd op) 11 7 = rd ∧
      Riscv.get_bits (Riscv.rWord f7 rs2 rs1 f3 rd op) 6 0 = op) ∧
    (∀ imm rs1 f3 rd op : Int,
      (0 ≤ imm ∧ imm < 4096) → (0 ≤ rs1 ∧ rs1 < 32) → (0 ≤ f3 ∧ f3 < 8) →
      (0 ≤ rd ∧ rd < 32) → (0 ≤ op ∧ op < 128) →
      Riscv.get_bits (Riscv.iWord imm rs1 f3 rd op) 31 20 = imm ∧
      Riscv.get_bits (Riscv.iWord imm rs1 f3 rd op) 19 15 = rs1 ∧
      Riscv.get_bits (Riscv.iWord imm rs1 f3 rd op) 14 12 = f3 ∧
      Riscv.get_bits (Riscv.iWord imm rs1 f3 rd op) 11 7 = rd ∧
      Riscv.get_bits (Riscv.iWord imm rs1 f3 rd op) 6 0 = op) ∧
    (∀ imm rs2 rs1 f3 op : Int,
      (0 ≤ imm ∧ imm < 4096) → (0 ≤ rs2 ∧ rs2 < 32) → (0 ≤ rs1 ∧ rs1 < 32) →
      (0 ≤ f3 ∧ f3 < 8) → (0 ≤ op ∧ op < 128) →
      Riscv.get_bits (Riscv.sWord imm rs2 rs1 f3 op) 31 25 = Riscv.get_bits imm 11 5 ∧
      Riscv.get_bits (Riscv.sWord imm rs2 rs1 f3 op) 24 20 = rs2 ∧
      Riscv.get_bits (Riscv.sWord imm rs2 rs1 f3 op) 19 15 = rs1 ∧
      Riscv.get_bits (Riscv.sWord imm rs2 rs1 f3 op) 14 12 = f3 ∧
      Riscv.get_bits (Riscv.sWord imm rs2 rs1 f3 op) 11 7 = Riscv.get_bits imm 4 0 ∧
      Riscv.get_bits (Riscv.sWord imm rs2 rs1 f3 op) 6 0 = op ∧
      Riscv.get_bits (Riscv.sWord imm rs2 rs1 f3 op) 31 25 * 32 +
        Riscv.get_bits (Riscv.sWord imm rs2 rs1 f3 op) 11 7 = imm) ∧
    (∀ off rs2 rs1 f3 op : Int,
      (2 ∣ off) → (0 ≤ off ∧ off < 8192) → (0 ≤ rs2 ∧ rs2 < 32) →
      (0 ≤ rs1 ∧ rs1 < 32) → (0 ≤ f3 ∧ f3 < 8) → (0 ≤ op ∧ op < 128) →
      Riscv.get_bits (Riscv.bWord off rs2 rs1 f3 op) 31 31 = Riscv.get_bits off 12 12 ∧
      Riscv.get_bits (Riscv.bWord off rs2 rs1 f3 op) 30 25 = Riscv.get_bits off 10 5 ∧
      Riscv.get_bits (Riscv.bWord off rs2 rs1 f3 op) 24 20 = rs2 ∧
      Riscv.get_bits (Riscv.bWord off rs2 rs1 f3 op) 19 15 = rs1 ∧
      Riscv.get_bits (Riscv.bWord off rs2 rs1 f3 op) 14 12 = f3 ∧
      Riscv.get_bits (Riscv.bWord off rs2 rs1 f3 op) 11 8 = Riscv.get_bits off 4 1 ∧
      Riscv.get_bits (Riscv.bWord off rs2 rs1 f3 op) 7 7 = Riscv.get_bits off 11 11 ∧
      Riscv.get_bits (Riscv.bWord off rs2 rs1 f3 op) 6 0 = op ∧
      Riscv.get_bits (Riscv.bWord off rs2 rs1 f3 op) 31 31 * 4096 +
        Riscv.get_bits (Riscv.bWord off rs2 rs1 f3 op) 7 7 * 2048 +
        Riscv.get_bits (Riscv.bWord off rs2 rs1 f3 op) 30 25 * 32 +
        Riscv.get_bits (Riscv.bWord off rs2 rs1 f3 op) 11 8 * 2 = off) ∧
    (∀ imm rd op : Int,
      (0 ≤ imm ∧ imm < 2 ^ 20) → (0 ≤ rd ∧ rd < 32) → (0 ≤ op ∧ op < 128) →
      Riscv.get_bits (Riscv.uWord imm rd op) 31 12 = imm ∧
      Riscv.get_bits (Riscv.uWord imm rd op) 11 7 = rd ∧
      Riscv.get_bits (Riscv.uWord imm rd op) 6 0 = op) ∧
    (∀ off rd op : Int,
      (2 ∣ off) → (0 ≤ off ∧ off < 2 ^ 21) → (0 ≤ rd ∧ rd < 32) →
      (0 ≤ op ∧ op < 128) →
      Riscv.get_bits (Riscv.jWord off rd op) 31 31 = Riscv.get_bits off 20 20 ∧
      Riscv.get_bits (Riscv.jWord off rd op) 30 21 = Riscv.get_bits off 10 1 ∧
      Riscv.get_bits (Riscv.jWord off rd op) 20 20 = Riscv.get_bits off 11 11 ∧
      Riscv.get_bits (Riscv.jWord off rd op) 19 12 = Riscv.get_bits off 19 12 ∧
      Riscv.get_bits (Riscv.jWord off rd op) 11 7 = rd ∧
      Riscv.get_bits (Riscv.jWord off rd op) 6 0 = op ∧
      Riscv.get_bits (Riscv.jWord off rd op) 31 31 * 2 ^ 20 +
        Riscv.get_bits (Riscv.jWord off rd op) 19 12 * 2 ^ 12 +
        Riscv.get_bits (Riscv.jWord off rd op) 20 20 * 2 ^ 11 +
        Riscv.get_bits (Riscv.jWord off rd op) 30 21 * 2 = off) := by
  refine ⟨?_, ?_, ?_, ?_, ?_, ?_, ?_, ?_, ?_⟩
  · intro rs rt rd sa funct h1 h2 h3 h4 h5
    rw [Mips.rWord_sum_mips rs rt rd sa funct h1 h2 h3 h4 h5]
    unfold Riscv.get_bits
    norm_num
    omega
  · intro opcode rs rt imm h1 h2 h3 h4
    rw [Mips.iWord_sum_mips opcode rs rt imm h1 h2 h3]
    unfold Riscv.get_bits
    norm_num
    omega
  · intro opcode target h1 h2
    rw [Mips.jWord_sum_mips opcode target h1]
    unfold Riscv.get_bits
    norm_num
    omega
  · intro f7 rs2 rs1 f3 rd op h1 h2 h3 h4 h5 h6
    rw [Riscv.rWord_sum_rv f7 rs2 rs1 f3 rd op h1 h2 h3 h4 h5 h6]
    unfold Riscv.get_bits
    norm_num
    omega
  · intro imm rs1 f3 rd op h1 h2 h3 h4 h5
    rw [Riscv.iWord_sum_rv imm rs1 f3 rd op h2 h3 h4 h5]
    unfold Riscv.get_bits
    norm_num
    omega
  · intro imm rs2 rs1 f3 op h1 h2 h3 h4 h5
    rw [Riscv.sWord_sum imm rs2 rs1 f3 op h2 h3 h4 h5]
    unfold Riscv.get_bits
    norm_num
    have hx := sW_extract (imm / 32 % 128) rs2 rs1 f3 (imm % 32) op (by omega) h2 h3 h4
      (by omega) h5
    refine ⟨hx.1, hx.2.1, hx.2.2.1, hx.2.2.2.1, hx.2.2.2.2.1, hx.2.2.2.2.2, ?_⟩
    rw [hx.1, hx.2.2.2.2.1]
    omega
  · intro off rs2 rs1 f3 op hd h1 h2 h3 h4 h5
    rw [Riscv.bWord_sum off rs2 rs1 f3 op h2 h3 h4 h5]
    unfold Riscv.get_bits
    norm_num
    have hx := bW_extract (off / 4096 % 2) (off / 32 % 64) rs2 rs1 f3 (off / 2 % 16)
      (off / 2048 % 2) op (by omega) (by omega) h2 h3 h4 (by omega) (by omega) h5
    refine ⟨hx.1, hx.2.1, hx.2.2.1, hx.2.2.2.1, hx.2.2.2.2.1, hx.2.2.2.2.2.1,
      hx.2.2.2.2.2.2.1, hx.2.2.2.2.2.2.2, ?_⟩
    rw [hx.1, hx.2.2.2.2.2.2.1, hx.2.1, hx.2.2.2.2.2.1]
    clear hx
    omega
  · intro imm rd op h1 h2 h3
    rw [Riscv.uWord_sum imm rd op h2 h3]
    unfold Riscv.get_bits
    norm_num
    omega
  · intro off rd op hd h1 h2 h3
    rw [Riscv.jWord_sum_rv off rd op h2 h3]
    unfold Riscv.get_bits
    norm_num
    have hx := jW_extract (off / 1048576 % 2) (off / 2 % 1024) (off / 2048 % 2)
      (off / 4096 % 256) rd op (by omega) (by omega) (by omega) (by omega) h2 h3
    refine ⟨hx.1, hx.2.1, hx.2.2.1, hx.2.2.2.1, hx.2.2.2.2.1, hx.2.2.2.2.2, ?_⟩
    rw [hx.1, hx.2.2.2.1, hx.2.2.1, hx.2.1]
    clear hx
    omega

/-- Witness for C9: concrete instances of the MIPS R-type, RISC-V S-type and
RISC-V B-type round-trips. -/
theorem c9_format_roundtrip_witness :
    ((0 : Int) ≤ 8 ∧ (8 : Int) < 32) ∧
    Riscv.get_bits (Mips.rWord 8 9 10 2 32) 25 21 = 8 ∧
    Riscv.get_bits (Riscv.sWord 72 6 5 2 35) 31 25 * 32 +
      Riscv.get_bits (Riscv.sWord 72 6 5 2 35) 11 7 = 72 ∧
    Riscv.get_bits (Riscv.bWord 2044 6 5 0 99) 31 31 * 4096 +
      Riscv.get_bits (Riscv.bWord 2044 6 5 0 99) 7 7 * 2048 +
      Riscv.get_bits (Riscv.bWord 2044 6 5 0 99) 30 25 * 32 +
      Riscv.get_bits (Riscv.bWord 2044 6 5 0 99) 11 8 * 2 = 2044 := by
  refine ⟨by norm_num, ?_, ?_, ?_⟩
  · exact (c9_format_roundtrip.1 8 9 10 2 32 (by norm_num) (by norm_num) (by norm_num)
      (by norm_num) (by norm_num)).2.1
  · exact ((c9_format_roundtrip.2.2.2.2.2.1 72 6 5 2 35 (by norm_num) (by norm_num)
      (by norm_num) (by norm_num) (by norm_num)).2.2.2.2.2.2)
  · exact ((c9_format_roundtrip.2.2.2.2.2.2.1 2044 6 5 0 99 (by norm_num) (by norm_num)
      (by norm_num) (by norm_num) (by norm_num) (by norm_num)).2.2.2.2.2.2.2.2)

/-- **C8**: for every I-type ALU-immediate instruction with an arbitrary
integer immediate operand, the encoder succeeds (no range validation) and
places exactly the low bits of the immediate into the immediate field —
masked to 16 bits on MIPS and 12 bits on RISC-V — so out-of-range immediates
silently wrap, and the remaining fields of the word are unaffected by the
immediate's high bits. -/
theorem c8_itype_imm_masking :
    (∀ (labels : Dict) (i : Nat) (argstr a0 a1 a2 m : Str) (rt rs imm : Int),
      (m = S "addi" ∨ m = S "slti" ∨ m = S "andi" ∨ m = S "ori" ∨ m = S "xori") →
      split_args Mips.la argstr = [a0, a1, a2] →
      Mips.parse_reg a0 = some rt → Mips.parse_reg a1 = some rs →
      parseInt0 a2 = some imm →
      ∃ opcode, dget Mips.OPCODES m = some opcode ∧
        Mips.encode labels i ⟨m, argstr⟩ = .ok (Mips.iWord opcode rs rt imm)) ∧
    (∀ opcode rs rt imm : Int,
      Mips.iWord opcode rs rt imm = Mips.iWord opcode rs rt (imm % 65536)) ∧
    (∀ opcode rs rt imm : Int,
      (0 ≤ opcode ∧ opcode < 64) → (0 ≤ rs ∧ rs < 32) → (0 ≤ rt ∧ rt < 32) →
      Riscv.get_bits (Mips.iWord opcode rs rt imm) 15 0 = imm % 65536 ∧
      Riscv.get_bits (Mips.iWord opcode rs rt imm) 31 26 = opcode ∧
      Riscv.get_bits (Mips.iWord opcode rs rt imm) 25 21 = rs ∧
      Riscv.get_bits (Mips.iWord opcode rs rt imm) 20 16 = rt) ∧
    (∀ (labels : Dict) (pc : Int) (argstr a0 a1 a2 m : Str) (rd rs1 imm : Int),
      (m = S "addi" ∨ m = S "slti" ∨ m = S "andi" ∨ m = S "ori" ∨ m = S "xori") →
      split_args Riscv.la argstr = [a0, a1, a2] →
      a1.contains '(' = false →
      Riscv.parse_reg a0 = some rd → Riscv.parse_reg a1 = some rs1 →
      parseInt0 a2 = some imm →
      ∃ info, Riscv.oget Riscv.OPCODES m = some info ∧
        Riscv.encode labels pc ⟨m, argstr⟩ =
          .ok (Riscv.iWord imm rs1 (info.f3.getD 0) rd info.op)) ∧
    (∀ imm rs1 f3 rd op : Int,
      Riscv.iWord imm rs1 f3 rd op = Riscv.iWord (imm % 4096) rs1 f3 rd op) ∧
    (∀ imm rs1 f3 rd op : Int,
      (0 ≤ rs1 ∧ rs1 < 32) → (0 ≤ f3 ∧ f3 < 8) → (0 ≤ rd ∧ rd < 32) →
      (0 ≤ op ∧ op < 128) →
      Riscv.get_bits (Riscv.iWord imm rs1 f3 rd op) 31 20 = imm % 4096 ∧
      Riscv.get_bits (Riscv.iWord imm rs1 f3 rd op) 19 15 = rs1 ∧
      Riscv.get_bits (Riscv.iWord imm rs1 f3 rd op) 14 12 = f3 ∧
      Riscv.get_bits (Riscv.iWord imm rs1 f3 rd op) 11 7 = rd ∧
      Riscv.get_bits (Riscv.iWord imm rs1 f3 rd op) 6 0 = op) := by
  refine ⟨?_, ?_, ?_, ?_, ?_, ?_⟩
  · intro labels i argstr a0 a1 a2 m rt rs imm hm hsplit h0 h1 h2
    rcases hm with h | h | h | h | h <;> subst h <;>
      exact ⟨_, rfl, by simp [Mips.encode, hsplit, h0, h1, h2, Mips.R_TYPE, Mips.OPCODES,
        Asm.dget, Asm.req, Asm.S, bind, Except.bind]⟩
  · intro opcode rs rt imm
    simp [Mips.iWord, Int.emod_emod_of_dvd]
  · intro opcode rs rt imm h1 h2 h3
    rw [Mips.iWord_sum_mips opcode rs rt imm h1 h2 h3]
    unfold Riscv.get_bits
    norm_num
    omega
  · intro labels pc argstr a0 a1 a2 m rd rs1 imm hm hsplit hpar h0 h1 h2
    have hpar' : ¬ ('(' ∈ a1) := by simpa using hpar
    rcases hm with h | h | h | h | h <;> subst h <;>
      exact ⟨_, rfl, by simp [Riscv.encode, hsplit, hpar', h0, h1, h2, Riscv.OPCODES,
        Riscv.oget, Asm.req, Asm.S, bind, Except.bind]⟩
  · intro imm rs1 f3 rd op
    simp [Riscv.iWord, Int.emod_emod_of_dvd]
  · intro imm rs1 f3 rd op h1 h2 h3 h4
    rw [Riscv.iWord_sum_rv imm rs1 f3 rd op h1 h2 h3 h4]
    unfold Riscv.get_bits
    norm_num
    omega

/-- Witness for C8: `addi` with the out-of-range immediates 70000 (MIPS) and
5000 (RISC-V) assembles without error and wraps. -/
theorem c8_itype_imm_masking_witness :
    split_args Mips.la (S "$t0, $t1, 70000") = [S "$t0", S "$t1", S "70000"] ∧
    (∃ opcode, dget Mips.OPCODES (S "addi") = some opcode ∧
      Mips.encode [] 0 ⟨S "addi", S "$t0, $t1, 70000"⟩ =
        .ok (Mips.iWord opcode 9 8 70000)) ∧
    (∃ info, Riscv.oget Riscv.OPCODES (S "addi") = some info ∧
      Riscv.encode [] 0 ⟨S "addi", S "t0, t1, 5000"⟩ =
        .ok (Riscv.iWord 5000 6 (info.f3.getD 0) 5 info.op)) :=
  ⟨rfl,
   c8_itype_imm_masking.1 [] 0 (S "$t0, $t1, 70000") (S "$t0") (S "$t1") (S "70000")
     (S "addi") 8 9 70000 (Or.inl rfl) rfl rfl rfl rfl,
   c8_itype_imm_masking.2.2.2.1 [] 0 (S "t0, t1, 5000") (S "t0") (S "t1") (S "5000")
     (S "addi") 5 6 5000 (Or.inl rfl) rfl rfl rfl rfl rfl⟩

/-- **C10**: a MIPS `jalr` with exactly one register operand uses it as `rs`
and defaults `rd` to 31 (`$ra`); with two operands the first is `rd` and the
second `rs` (funct 0x09, opcode 0). -/
theorem c10_jalr_operands :
    (∀ (labels : Dict) (i : Nat) (argstr a0 : Str) (rs : Int),
      split_args Mips.la argstr = [a0] → Mips.parse_reg a0 = some rs →
      Mips.encode labels i ⟨S "jalr", argstr⟩ = .ok (Mips.rWord rs 0 31 0 9)) ∧
    (∀ (labels : Dict) (i : Nat) (argstr a0 a1 : Str) (rd rs : Int),
      split_args Mips.la argstr = [a0, a1] →
      Mips.parse_reg a0 = some rd → Mips.parse_reg a1 = some rs →
      Mips.encode labels i ⟨S "jalr", argstr⟩ = .ok (Mips.rWord rs 0 rd 0 9)) := by
  constructor
  · intro labels i argstr a0 rs hsplit h0
    simp [Mips.encode, hsplit, h0, Mips.R_TYPE, Asm.dget, Asm.req, Asm.S, bind, Except.bind]
  · intro labels i argstr a0 a1 rd rs hsplit h0 h1
    simp [Mips.encode, hsplit, h0, h1, Mips.R_TYPE, Asm.dget, Asm.req, Asm.S, bind, Except.bind]

/-- Witness for C10: `jalr $t0` links to `$ra` (rd = 31), `jalr $t1, $t0`
uses rd = 9, rs = 8. -/
theorem c10_jalr_operands_witness :
    split_args Mips.la (S "$t0") = [S "$t0"] ∧
    Mips.encode [] 0 ⟨S "jalr", S "$t0"⟩ = .ok (Mips.rWord 8 0 31 0 9) ∧
    Mips.encode [] 0 ⟨S "jalr", S "$t1, $t0"⟩ = .ok (Mips.rWord 8 0 9 0 9) :=
  ⟨rfl,
   c10_jalr_operands.1 [] 0 (S "$t0") (S "$t0") 8 rfl rfl,
   c10_jalr_operands.2 [] 0 (S "$t1, $t0") (S "$t1") (S "$t0") 9 8 rfl rfl rfl⟩

/-- The `beq` encoding path: with the target resolved from the label table,
the emitted word is the I-format word with offset `target - (i + 1)`. -/
theorem mips_beq_ok (labels : Dict) (i : Nat) (argstr a0 a1 aL : Str)
    (rs rt target : Int) (hsplit : split_args Mips.la argstr = [a0, a1, aL])
    (h0 : Mips.parse_reg a0 = some rs) (h1 : Mips.parse_reg a1 = some rt)
    (hL : dget labels aL = some target) :
    Mips.encode labels i ⟨S "beq", argstr⟩ =
      .ok (Mips.iWord 4 rs rt (target - ((i : Int) + 1))) := by
  simp [Mips.encode, hsplit, h0, h1, hL, Mips.R_TYPE, Mips.OPCODES, Mips.resolve,
    Asm.dget, Asm.req, Asm.S, bind, Except.bind]

/-- The `blez`/`bltz` encoding path (rt is 0 in both). -/
theorem mips_b2_ok (labels : Dict) (i : Nat) (argstr a0 aL m : Str)
    (rs target : Int) (hm : m = S "blez" ∨ m = S "bltz")
    (hsplit : split_args Mips.la argstr = [a0, aL])
    (h0 : Mips.parse_reg a0 = some rs) (hL : dget labels aL = some target) :
    ∃ opcode, dget Mips.OPCODES m = some opcode ∧ 0 ≤ opcode ∧ opcode < 64 ∧
      Mips.encode labels i ⟨m, argstr⟩ =
        .ok (Mips.iWord opcode rs 0 (target - ((i : Int) + 1))) := by
  rcases hm with h | h <;> subst h <;>
    exact ⟨_, rfl, by norm_num, by norm_num,
      by simp [Mips.encode, hsplit, h0, hL, Mips.R_TYPE, Mips.OPCODES, Mips.resolve,
        Asm.dget, Asm.req, Asm.S, bind, Except.bind]⟩

/-- The RISC-V branch encoding path (`beq`/`bne`/`blt`/`bge`): with the
target resolved from the label table, the emitted word is the B-format word
with byte offset `target - pc`. -/
theorem riscv_branch_ok (labels : Dict) (pc : Int) (argstr a0 a1 aL m : Str)
    (rs1 rs2 target : Int)
    (hm : m = S "beq" ∨ m = S "bne" ∨ m = S "blt" ∨ m = S "bge")
    (hsplit : split_args Riscv.la argstr = [a0, a1, aL])
    (h0 : Riscv.parse_reg a0 = some rs1) (h1 : Riscv.parse_reg a1 = some rs2)
    (hL : dget labels aL = some target) :
    ∃ f3v, Riscv.oget Riscv.OPCODES m = some ⟨0x63, some f3v, none⟩ ∧
      0 ≤ f3v ∧ f3v < 8 ∧
      Riscv.encode labels pc ⟨m, argstr⟩ =
        .ok (Riscv.bWord (target - pc) rs2 rs1 f3v 0x63) := by
  rcases hm with h | h | h | h <;> subst h <;>
    exact ⟨_, rfl, by norm_num, by norm_num,
      by simp [Riscv.encode, hsplit, h0, h1, hL, Riscv.OPCODES, Riscv.oget, Riscv.resolve,
        Asm.dget, Asm.req, Asm.S, bind, Except.bind]⟩

/-- The RISC-V `jal` encoding path. -/
theorem riscv_jal_ok (labels : Dict) (pc : Int) (argstr a0 aL : Str)
    (rd target : Int) (hsplit : split_args Riscv.la argstr = [a0, aL])
    (h0 : Riscv.parse_reg a0 = some rd) (hL : dget labels aL = some target) :
    Riscv.encode labels pc ⟨S "jal", argstr⟩ =
      .ok (Riscv.jWord (target - pc) rd 0x6f) := by
  simp [Riscv.encode, hsplit, h0, hL, Riscv.OPCODES, Riscv.oget, Riscv.resolve,
    Asm.dget, Asm.req, Asm.S, bind, Except.bind]

/-- **C1**: when a branch (or RISC-V jump) references a defined label —
whether defined before or after the reference, since pass 1 completes the
label table before pass 2 encodes — the encoded offset is exactly the
label's recorded address minus the referencing instruction's address: MIPS
places the word offset `target - (i + 1)` in the low 16 bits of the branch
word, RISC-V places the byte offset `target - pc` in the 13-bit (LSB-zero)
scrambled branch immediate (and the 21-bit immediate of `jal`), and the
in-range offset is recovered exactly by sign-decoding; encodings depend only
on the resolved target, so forward and backward references with coinciding
addresses yield identical words. -/
theorem c1_branch_offset_encoding :
    (∀ (labels : Dict) (i : Nat) (argstr a0 a1 aL : Str) (rs rt target : Int),
      split_args Mips.la argstr = [a0, a1, aL] →
      Mips.parse_reg a0 = some rs → Mips.parse_reg a1 = some rt →
      dget labels aL = some target →
      (0 ≤ rs ∧ rs < 32) → (0 ≤ rt ∧ rt < 32) →
      Mips.encode labels i ⟨S "beq", argstr⟩ =
        .ok (Mips.iWord 4 rs rt (target - ((i : Int) + 1))) ∧
      Riscv.get_bits (Mips.iWord 4 rs rt (target - ((i : Int) + 1))) 15 0 =
        (target - ((i : Int) + 1)) % 65536 ∧
      (-32768 ≤ target - ((i : Int) + 1) → target - ((i : Int) + 1) < 32768 →
        sdec 16 (Riscv.get_bits (Mips.iWord 4 rs rt (target - ((i : Int) + 1))) 15 0) =
          target - ((i : Int) + 1))) ∧
    (∀ (labels : Dict) (i : Nat) (argstr a0 aL m : Str) (rs target : Int),
      (m = S "blez" ∨ m = S "bltz") →
      split_args Mips.la argstr = [a0, aL] →
      Mips.parse_reg a0 = some rs → dget labels aL = some target →
      (0 ≤ rs ∧ rs < 32) →
      ∃ opcode, dget Mips.OPCODES m = some opcode ∧
        Mips.encode labels i ⟨m, argstr⟩ =
          .ok (Mips.iWord opcode rs 0 (target - ((i : Int) + 1))) ∧
        Riscv.get_bits (Mips.iWord opcode rs 0 (target - ((i : Int) + 1))) 15 0 =
          (target - ((i : Int) + 1)) % 65536) ∧
    (∀ (labels : Dict) (pc : Int) (argstr a0 a1 aL m : Str) (rs1 rs2 target : Int),
      (m = S "beq" ∨ m = S "bne" ∨ m = S "blt" ∨ m = S "bge") →
      split_args Riscv.la argstr = [a0, a1, aL] →
      Riscv.parse_reg a0 = some rs1 → Riscv.parse_reg a1 = some rs2 →
      dget labels aL = some target →
      (0 ≤ rs1 ∧ rs1 < 32) → (0 ≤ rs2 ∧ rs2 < 32) →
      ∃ f3v, Riscv.oget Riscv.OPCODES m = some ⟨0x63, some f3v, none⟩ ∧
        Riscv.encode labels pc ⟨m, argstr⟩ =
          .ok (Riscv.bWord (target - pc) rs2 rs1 f3v 0x63) ∧
        (2 ∣ target - pc → -4096 ≤ target - pc → target - pc < 4096 →
          sdec 13 (Riscv.get_bits (Riscv.bWord (target - pc) rs2 rs1 f3v 0x63) 31 31 * 4096 +
            Riscv.get_bits (Riscv.bWord (target - pc) rs2 rs1 f3v 0x63) 7 7 * 2048 +
            Riscv.get_bits (Riscv.bWord (target - pc) rs2 rs1 f3v 0x63) 30 25 * 32 +
            Riscv.get_bits (Riscv.bWord (target - pc) rs2 rs1 f3v 0x63) 11 8 * 2) =
            target - pc)) ∧
    (∀ (labels : Dict) (pc : Int) (argstr a0 aL : Str) (rd target : Int),
      split_args Riscv.la argstr = [a0, aL] →
      Riscv.parse_reg a0 = some rd → dget labels aL = some target →
      (0 ≤ rd ∧ rd < 32) →
      Riscv.encode labels pc ⟨S "jal", argstr⟩ =
        .ok (Riscv.jWord (target - pc) rd 0x6f) ∧
      (2 ∣ target - pc → -1048576 ≤ target - pc → target - pc < 1048576 →
        sdec 21 (Riscv.get_bits (Riscv.jWord (target - pc) rd 0x6f) 31 31 * 1048576 +
          Riscv.get_bits (Riscv.jWord (target - pc) rd 0x6f) 19 12 * 4096 +
          Riscv.get_bits (Riscv.jWord (target - pc) rd 0x6f) 20 20 * 2048 +
          Riscv.get_bits (Riscv.jWord (target - pc) rd 0x6f) 30 21 * 2) = target - pc)) ∧
    (∀ (labels1 labels2 : Dict) (i : Nat) (arg1 arg2 b0 b1 bL c0 c1 cL : Str)
        (rs rt target : Int),
      split_args Mips.la arg1 = [b0, b1, bL] → split_args Mips.la arg2 = [c0, c1, cL] →
      Mips.parse_reg b0 = some rs → Mips.parse_reg c0 = some rs →
      Mips.parse_reg b1 = some rt → Mips.parse_reg c1 = some rt →
      dget labels1 bL = some target → dget labels2 cL = some target →
      Mips.encode labels1 i ⟨S "beq", arg1⟩ = Mips.encode labels2 i ⟨S "beq", arg2⟩) ∧
    (∀ (labels1 labels2 : Dict) (pc : Int) (arg1 arg2 b0 b1 bL c0 c1 cL : Str)
        (rs1 rs2 target : Int),
      split_args Riscv.la arg1 = [b0, b1, bL] → split_args Riscv.la arg2 = [c0, c1, cL] →
      Riscv.parse_reg b0 = some rs1 → Riscv.parse_reg c0 = some rs1 →
      Riscv.parse_reg b1 = some rs2 → Riscv.parse_reg c1 = some rs2 →
      dget labels1 bL = some target → dget labels2 cL = some target →
      Riscv.encode labels1 pc ⟨S "beq", arg1⟩ = Riscv.encode labels2 pc ⟨S "beq", arg2⟩) := by
  refine ⟨?_, ?_, ?_, ?_, ?_, ?_⟩
  · intro labels i argstr a0 a1 aL rs rt target hsplit h0 h1 hL hrs hrt
    have hext : Riscv.get_bits (Mips.iWord 4 rs rt (target - ((i : Int) + 1))) 15 0 =
        (target - ((i : Int) + 1)) % 65536 := by
      rw [Mips.iWord_sum_mips 4 rs rt _ (by norm_num) hrs hrt]
      unfold Riscv.get_bits
      norm_num
      omega
    refine ⟨mips_beq_ok labels i argstr a0 a1 aL rs rt target hsplit h0 h1 hL, hext, ?_⟩
    intro hlo hhi
    rw [hext]
    unfold sdec
    norm_num
    split_ifs <;> omega
  · intro labels i argstr a0 aL m rs target hm hsplit h0 hL hrs
    obtain ⟨opcode, htab, hop0, hop1, henc⟩ :=
      mips_b2_ok labels i argstr a0 aL m rs target hm hsplit h0 hL
    refine ⟨opcode, htab, henc, ?_⟩
    rw [Mips.iWord_sum_mips opcode rs 0 _ ⟨hop0, hop1⟩ hrs (by norm_num)]
    unfold Riscv.get_bits
    norm_num
    omega
  · intro labels pc argstr a0 a1 aL m rs1 rs2 target hm hsplit h0 h1 hL hr1 hr2
    obtain ⟨f3v, htab, hf0, hf1, henc⟩ :=
      riscv_branch_ok labels pc argstr a0 a1 aL m rs1 rs2 target hm hsplit h0 h1 hL
    refine ⟨f3v, htab, henc, ?_⟩
    intro he hlo hhi
    rw [Riscv.bWord_sum (target - pc) rs2 rs1 f3v 0x63 hr2 hr1 ⟨hf0, hf1⟩ (by norm_num)]
    unfold Riscv.get_bits
    norm_num
    have hx := bW_extract ((target - pc) / 4096 % 2) ((target - pc) / 32 % 64) rs2 rs1 f3v
      ((target - pc) / 2 % 16) ((target - pc) / 2048 % 2) 0x63 (by omega) (by omega) hr2 hr1
      ⟨hf0, hf1⟩ (by omega) (by omega) (by norm_num)
    rw [hx.1, hx.2.2.2.2.2.2.1, hx.2.1, hx.2.2.2.2.2.1]
    clear hx
    unfold sdec
    norm_num
    split_ifs <;> omega
  · intro labels pc argstr a0 aL rd target hsplit h0 hL hrd
    refine ⟨riscv_jal_ok labels pc argstr a0 aL rd target hsplit h0 hL, ?_⟩
    intro he hlo hhi
    rw [Riscv.jWord_sum_rv (target - pc) rd 0x6f hrd (by norm_num)]
    unfold Riscv.get_bits
    norm_num
    have hx := jW_extract ((target - pc) / 1048576 % 2) ((target - pc) / 2 % 1024)
      ((target - pc) / 2048 % 2) ((target - pc) / 4096 % 256) rd 0x6f (by omega) (by omega)
      (by omega) (by omega) hrd (by norm_num)
    rw [hx.1, hx.2.2.2.1, hx.2.2.1, hx.2.1]
    clear hx
    unfold sdec
    norm_num
    split_ifs <;> omega
  · intro labels1 labels2 i arg1 arg2 b0 b1 bL c0 c1 cL rs rt target hs1 hs2 hb0 hc0 hb1
      hc1 hL1 hL2
    rw [mips_beq_ok labels1 i arg1 b0 b1 bL rs rt target hs1 hb0 hb1 hL1,
      mips_beq_ok labels2 i arg2 c0 c1 cL rs rt target hs2 hc0 hc1 hL2]
  · intro labels1 labels2 pc arg1 arg2 b0 b1 bL c0 c1 cL rs1 rs2 target hs1 hs2 hb0 hc0 hb1
      hc1 hL1 hL2
    simp [Riscv.encode, hs1, hs2, hb0, hc0, hb1, hc1, hL1, hL2, Riscv.OPCODES, Riscv.oget,
      Riscv.resolve, Asm.dget, Asm.req, Asm.S, bind, Except.bind]

/-- Witness for C1: a backward `beq` to a label at word index 0 from index 1
(offset −2) on MIPS, recovered exactly by sign-decoding, and a forward
RISC-V `beq` to byte address 8 from pc 0. -/
theorem c1_branch_offset_encoding_witness :
    Mips.encode [(S "loop", 0)] 1 ⟨S "beq", S "$t0, $t1, loop"⟩ =
      .ok (Mips.iWord 4 8 9 (0 - ((1 : Nat) + 1 : Int))) ∧
    sdec 16 (Riscv.get_bits (Mips.iWord 4 8 9 (0 - ((1 : Nat) + 1 : Int))) 15 0) =
      0 - ((1 : Nat) + 1 : Int) ∧
    (∃ f3v, Riscv.encode [(S "fwd", 8)] 0 ⟨S "beq", S "t0, t1, fwd"⟩ =
      .ok (Riscv.bWord (8 - 0) 6 5 f3v 0x63)) := by
  obtain ⟨he, hx, hs⟩ := c1_branch_offset_encoding.1 [(S "loop", 0)] 1 (S "$t0, $t1, loop")
    (S "$t0") (S "$t1") (S "loop") 8 9 0 rfl rfl rfl rfl (by norm_num) (by norm_num)
  refine ⟨he, hs (by norm_num) (by norm_num), ?_⟩
  obtain ⟨f3v, htab, henc, hrec⟩ := c1_branch_offset_encoding.2.2.1 [(S "fwd", 8)] 0
    (S "t0, t1, fwd") (S "t0") (S "t1") (S "fwd") (S "beq") 5 6 8 (Or.inl rfl) rfl rfl rfl
    rfl (by norm_num) (by norm_num)
  exact ⟨f3v, henc⟩

/-- **C5**: a `li rd,imm` statement expands on MIPS to exactly one
instruction `addi rd,$0,imm` when `-32768 ≤ imm ≤ 32767`, and otherwise to
`lui rd,upper16` followed by `ori rd,rd,lower16` exactly when the low 16
bits of `imm` are nonzero (so one or two instructions); on RISC-V it always
expands to exactly two instructions, `lui rd,(imm+0x800)>>12` followed by
`addi rd,rd,imm&0xFFF`. -/
theorem c5_li_expansion :
    (∀ (clean : List Stmt) (labels labels2 : Dict) (raw line0 line2 m0 : Str)
        (rest : Option Str) (reg valS : Str) (v : Int),
      strip (takeUntil '#' raw) = line0 → line0 ≠ [] →
      labelSplit labels (clean.length : Int) line0 = (labels2, line2) → line2 ≠ [] →
      splitWs1 line2 = (m0, rest) → toLowerStr m0 = S "li" →
      splitOnce ',' (rest.getD []) = some (reg, valS) →
      parseInt0 (strip valS) = some v →
      ((-32768 ≤ v ∧ v ≤ 32767) →
        Mips.lineStep (clean, labels) raw =
          .ok (clean ++ [⟨S "addi", reg ++ S ", $0, " ++ pyStr v⟩], labels2)) ∧
      (¬ (-32768 ≤ v ∧ v ≤ 32767) → v % 65536 ≠ 0 →
        Mips.lineStep (clean, labels) raw =
          .ok (clean ++ [⟨S "lui", reg ++ S ", " ++ pyStr (v / 65536 % 65536)⟩,
            ⟨S "ori", reg ++ S ", " ++ reg ++ S ", " ++ pyStr (v % 65536)⟩], labels2)) ∧
      (¬ (-32768 ≤ v ∧ v ≤ 32767) → v % 65536 = 0 →
        Mips.lineStep (clean, labels) raw =
          .ok (clean ++ [⟨S "lui", reg ++ S ", " ++ pyStr (v / 65536 % 65536)⟩], labels2))) ∧
    (∀ (processed : List Stmt) (labels labels2 : Dict) (pc : Int) (line0 line2 m0 : Str)
        (rest : Option Str) (rd immS : Str) (imm : Int),
      labelSplit labels pc line0 = (labels2, line2) → line2 ≠ [] →
      splitWs1 line2 = (m0, rest) → toLowerStr m0 = S "li" →
      splitOnce ',' (rest.getD []) = some (rd, immS) →
      parseInt0 (strip immS) = some imm →
      Riscv.lineStep (processed, labels, pc) line0 =
        .ok (processed ++ [⟨S "lui", rd ++ S ", " ++ pyStr ((imm + 2048) / 4096)⟩,
          ⟨S "addi", rd ++ S ", " ++ rd ++ S ", " ++ pyStr (imm % 4096)⟩],
          labels2, pc + 8)) := by
  constructor
  · intro clean labels labels2 raw line0 line2 m0 rest reg valS v hclean hne hls hne2 hw hm
      hcomma hv
    refine ⟨?_, ?_, ?_⟩
    · intro hin
      simp [Mips.lineStep, hclean, hne, hls, hne2, hw, hm, hcomma, hv, hin, Asm.S]
    · intro hout hlz
      simp [Mips.lineStep, hclean, hne, hls, hne2, hw, hm, hcomma, hv, hout, hlz, Asm.S]
    · intro hout hlz
      simp [Mips.lineStep, hclean, hne, hls, hne2, hw, hm, hcomma, hv, hout, hlz, Asm.S]
  · intro processed labels labels2 pc line0 line2 m0 rest rd immS imm hls hne2 hw hm hcomma
      himm
    simp [Riscv.lineStep, hls, hne2, hw, hm, hcomma, himm, Asm.S]

/-- Witness for C5: `li $t0, 100000` (MIPS) expands to exactly two
instructions, `li $t0, 5` to exactly one, and `li t0, 5` (RISC-V) to exactly
two. -/
theorem c5_li_expansion_witness :
    Mips.lineStep ([], []) (S "li $t0, 100000") =
      .ok ([⟨S "lui", S "$t0" ++ S ", " ++ pyStr (100000 / 65536 % 65536)⟩,
        ⟨S "ori", S "$t0" ++ S ", " ++ S "$t0" ++ S ", " ++ pyStr ((100000 : Int) % 65536)⟩],
        []) ∧
    Mips.lineStep ([], []) (S "li $t0, 5") =
      .ok ([⟨S "addi", S "$t0" ++ S ", $0, " ++ pyStr 5⟩], []) ∧
    Riscv.lineStep ([], [], 0) (S "li t0, 5") =
      .ok ([⟨S "lui", S "t0" ++ S ", " ++ pyStr ((5 + 2048) / 4096)⟩,
        ⟨S "addi", S "t0" ++ S ", " ++ S "t0" ++ S ", " ++ pyStr ((5 : Int) % 4096)⟩],
        [], 0 + 8) := by
  refine ⟨?_, ?_, ?_⟩
  · exact ((c5_li_expansion.1 [] [] [] (S "li $t0, 100000") (S "li $t0, 100000")
      (S "li $t0, 100000") (S "li") (some (S "$t0, 100000")) (S "$t0") (S " 100000") 100000
      rfl (by decide) rfl (by decide) rfl rfl rfl rfl).2.1 (by norm_num) (by norm_num))
  · exact ((c5_li_expansion.1 [] [] [] (S "li $t0, 5") (S "li $t0, 5") (S "li $t0, 5")
      (S "li") (some (S "$t0, 5")) (S "$t0") (S " 5") 5
      rfl (by decide) rfl (by decide) rfl rfl rfl rfl).1 (by norm_num))
  · exact (c5_li_expansion.2 [] [] [] 0 (S "li t0, 5") (S "li t0, 5") (S "li")
      (some (S "t0, 5")) (S "t0") (S " 5") 5 rfl (by decide) rfl rfl rfl rfl)

/-- If some statement of the list encodes to an error (at any index), the
whole MIPS encoding loop errors: no partial word list is produced. -/
theorem mips_pass2_error (labels : Dict) :
    ∀ (stmts : List Stmt) (i j : Nat) (st : Stmt),
      stmts.get? j = some st → (∀ i', Mips.encode labels i' st = .error ()) →
      Mips.pass2 labels i stmts = .error ()
  | [], _, j, st, hj, _ => by simp at hj
  | st' :: rest, i, 0, st, hj, herr => by
    rw [List.get?_cons_zero] at hj
    injection hj with hj
    subst hj
    simp [Mips.pass2, herr i, bind, Except.bind]
  | st' :: rest, i, j + 1, st, hj, herr => by
    rw [List.get?_cons_succ] at hj
    have htail := mips_pass2_error labels rest (i + 1) j st hj herr
    unfold Mips.pass2
    cases he : Mips.encode labels i st' <;>
      simp [bind, Except.bind, he, htail]

/-- Same propagation for the RISC-V encoding loop. -/
theorem riscv_pass2_error (labels : Dict) :
    ∀ (stmts : List Stmt) (pc : Int) (j : Nat) (st : Stmt),
      stmts.get? j = some st → (∀ pc', Riscv.encode labels pc' st = .error ()) →
      Riscv.pass2 labels pc stmts = .error ()
  | [], _, j, st, hj, _ => by simp at hj
  | st' :: rest, pc, 0, st, hj, herr => by
    rw [List.get?_cons_zero] at hj
    injection hj with hj
    subst hj
    simp [Riscv.pass2, herr pc, bind, Except.bind]
  | st' :: rest, pc, j + 1, st, hj, herr => by
    rw [List.get?_cons_succ] at hj
    have htail := riscv_pass2_error labels rest (pc + 4) j st hj herr
    unfold Riscv.pass2
    cases he : Riscv.encode labels pc st' <;>
      simp [bind, Except.bind, he, htail]

/-- Counterexample to **C3**: the MIPS assembler accepts the unknown
mnemonic `foo` and silently emits the zero word instead of aborting
(`machine_code` is initialised to 0 and no dispatch arm fires); the RISC-V
assembler aborts on the same program. -/
theorem c3_counterexample :
    Mips.assemble [S "foo $1, $2"] = .ok [0] ∧
    Riscv.assemble [S "foo x1, x2"] = .error () :=
  ⟨rfl, rfl⟩

/-- **C3 (amended)**: a mnemonic that is neither a pseudo-instruction nor in
the canonical opcode table is fatal only in the RISC-V assembler (the
`OPCODES[op]` lookup aborts the run, and no word list is produced); the MIPS
assembler does not abort — the statement is silently encoded as the zero
word `0x00000000` and assembly continues. -/
theorem c3_unknown_mnemonic :
    (∀ (labels : Dict) (pc : Int) (st : Stmt),
      Riscv.oget Riscv.OPCODES st.mnemonic = none →
      Riscv.encode labels pc st = .error ()) ∧
    (∀ (raw : List Str) (stmts : List Stmt) (labels : Dict) (pc : Int) (j : Nat)
        (st : Stmt),
      Riscv.pass1 raw = .ok (stmts, labels, pc) → stmts.get? j = some st →
      Riscv.oget Riscv.OPCODES st.mnemonic = none →
      Riscv.assemble raw = .error ()) ∧
    (∀ (labels : Dict) (i : Nat) (st : Stmt),
      dget Mips.R_TYPE st.mnemonic = none → st.mnemonic ≠ S "j" →
      st.mnemonic ≠ S "jal" → dget Mips.OPCODES st.mnemonic = none →
      Mips.encode labels i st = .ok 0) := by
  refine ⟨?_, ?_, ?_⟩
  · intro labels pc st h
    simp [Riscv.encode, h, Asm.req, bind, Except.bind]
  · intro raw stmts labels pc j st hp1 hj htab
    have herr : ∀ pc', Riscv.encode labels pc' st = .error () := fun pc' => by
      simp [Riscv.encode, htab, Asm.req, bind, Except.bind]
    simp [Riscv.assemble, hp1, bind, Except.bind,
      riscv_pass2_error labels stmts 0 j st hj herr]
  · intro labels i st h1 h2 h3 h4
    simp [Mips.encode, h1, h2, h3, h4, Asm.req, bind, Except.bind]

/-- Witness for the amended C3: the unknown mnemonic `foo` errors the
RISC-V encoder and whole run, and yields the zero word on MIPS. -/
theorem c3_unknown_mnemonic_witness :
    Riscv.encode [] 0 ⟨S "foo", S "x1, x2"⟩ = .error () ∧
    Riscv.assemble [S "foo x1, x2"] = .error () ∧
    Mips.encode [] 0 ⟨S "foo", S "$1, $2"⟩ = .ok 0 :=
  ⟨c3_unknown_mnemonic.1 [] 0 ⟨S "foo", S "x1, x2"⟩ rfl,
   c3_unknown_mnemonic.2.1 [S "foo x1, x2"] [⟨S "foo", S "x1, x2"⟩] [] 4 0
     ⟨S "foo", S "x1, x2"⟩ rfl rfl rfl,
   c3_unknown_mnemonic.2.2 [] 0 ⟨S "foo", S "$1, $2"⟩ rfl (by decide) (by decide) rfl⟩

/-- Assignment into the label dictionary always succeeds and overwrites. -/
theorem dget_dset : ∀ (d : Dict) (k : Str) (v : Int), dget (dset d k v) k = some v
  | [], k, v => by simp [Asm.dset, Asm.dget]
  | (k', v') :: rest, k, v => by
    by_cases h : k' = k
    · simp [Asm.dset, Asm.dget, h]
    · simp [Asm.dset, Asm.dget, h, dget_dset rest k v]

/-- Counterexample to **C4**: both assemblers accept a program that defines
the label `L` twice and produce output instead of aborting. -/
theorem c4_counterexample :
    Mips.assemble [S "L: nop", S "L: nop"] = .ok [0x20000000, 0x20000000] ∧
    Riscv.assemble [S "L: nop", S "L: nop"] = .ok [0x13, 0x13] :=
  ⟨rfl, rfl⟩

/-- **C4 (amended)**: neither assembler checks for duplicate labels — a
label definition never fails, the dictionary assignment overwrites any
existing binding, so a repeated name silently keeps the address of the
textually last definition. -/
theorem c4_duplicate_labels :
    (∀ (d : Dict) (L : Str) (a b : Int), dget (dset (dset d L a) L b) L = some b) ∧
    (∀ (clean : List Stmt) (labels : Dict) (raw line0 nm rem : Str),
      strip (takeUntil '#' raw) = line0 → line0 ≠ [] →
      splitOnce ':' line0 = some (nm, rem) → strip rem = [] →
      Mips.lineStep (clean, labels) raw =
        .ok (clean, dset labels (strip nm) (clean.length : Int))) ∧
    (∀ (processed : List Stmt) (labels : Dict) (pc : Int) (line0 nm rem : Str),
      splitOnce ':' line0 = some (nm, rem) → strip rem = [] →
      Riscv.lineStep (processed, labels, pc) line0 =
        .ok (processed, dset labels (strip nm) pc, pc)) := by
  refine ⟨?_, ?_, ?_⟩
  · intro d L a b
    exact dget_dset (dset d L a) L b
  · intro clean labels raw line0 nm rem hclean hne hsp hrem
    simp [Mips.lineStep, Asm.labelSplit, hclean, hne, hsp, hrem]
  · intro processed labels pc line0 nm rem hsp hrem
    simp [Riscv.lineStep, Asm.labelSplit, hsp, hrem]

/-- Witness for the amended C4: overwriting `L`, and label-only lines on
both assemblers. -/
theorem c4_duplicate_labels_witness :
    dget (dset (dset [] (S "L") 0) (S "L") 1) (S "L") = some 1 ∧
    Mips.lineStep ([], []) (S "L:") = .ok ([], dset [] (strip (S "L")) 0) ∧
    Riscv.lineStep ([], [], 8) (S "L:") = .ok ([], dset [] (strip (S "L")) 8, 8) :=
  ⟨c4_duplicate_labels.1 [] (S "L") 0 1,
   c4_duplicate_labels.2.1 [] [] (S "L:") (S "L:") (S "L") [] rfl (by decide) rfl rfl,
   c4_duplicate_labels.2.2 [] [] 8 (S "L:") (S "L") [] rfl rfl⟩

/-- Every successful MIPS preprocessing step only appends to the canonical
instruction list. -/
theorem mips_lineStep_append (acc : List Stmt × Dict) (raw : Str)
    (res : List Stmt × Dict) (h : Mips.lineStep acc raw = .ok res) :
    ∃ tail, res.1 = acc.1 ++ tail := by
  simp only [Mips.lineStep, Asm.labelSplit] at h
  by_cases h0 : strip (takeUntil '#' raw) = []
  · rw [if_pos h0] at h
    injection h with h
    exact ⟨[], by rw [← h]; simp⟩
  · rw [if_neg h0] at h
    rcases hsp : splitOnce ':' (strip (takeUntil '#' raw)) with - | ⟨nm, rem⟩ <;>
      simp only [hsp] at h <;>
      repeat' split at h
    all_goals try (cases h)
    all_goals first
      | exact ⟨_, rfl⟩
      | exact ⟨_, List.append_assoc _ _ _⟩
      | (refine ⟨[], ?_⟩; simp)

/-- Every successful RISC-V pass-1 step appends `n` instructions and
advances the program counter by exactly `4 * n`. -/
theorem riscv_lineStep_append (acc : List Stmt × Dict × Int) (line0 : Str)
    (res : List Stmt × Dict × Int) (h : Riscv.lineStep acc line0 = .ok res) :
    ∃ tail, res.1 = acc.1 ++ tail ∧ res.2.2 = acc.2.2 + 4 * tail.length := by
  simp only [Riscv.lineStep, Asm.labelSplit] at h
  rcases hsp : splitOnce ':' line0 with - | ⟨nm, rem⟩ <;>
    simp only [hsp] at h <;>
    repeat' split at h
  all_goals try (cases h)
  all_goals first
    | (refine ⟨_, rfl, ?_⟩; simp; try omega)
    | (refine ⟨[], ?_, ?_⟩ <;> simp)

/-- The whole MIPS preprocessing pass only appends to the instruction
list. -/
theorem mips_preprocess_append :
    ∀ (lines : List Str) (acc res : List Stmt × Dict),
      List.foldlM Mips.lineStep acc lines = .ok res → ∃ tail, res.1 = acc.1 ++ tail
  | [], acc, res, h => by
    cases h
    exact ⟨[], by simp⟩
  | l :: ls, acc, res, h => by
    rw [List.foldlM_cons] at h
    cases hstep : Mips.lineStep acc l with
    | error e => rw [hstep] at h; cases h
    | ok acc' =>
      rw [hstep] at h
      simp only [bind, Except.bind] at h
      obtain ⟨t1, h1⟩ := mips_lineStep_append acc l acc' hstep
      obtain ⟨t2, h2⟩ := mips_preprocess_append ls acc' res h
      exact ⟨t1 ++ t2, by rw [h2, h1, List.append_assoc]⟩

/-- Pass 1 of the RISC-V assembler appends instructions and advances `pc`
by 4 per appended instruction. -/
theorem riscv_pass1_steps :
    ∀ (lines : List Str) (acc res : List Stmt × Dict × Int),
      List.foldlM Riscv.lineStep acc lines = .ok res →
      ∃ tail, res.1 = acc.1 ++ tail ∧ res.2.2 = acc.2.2 + 4 * tail.length
  | [], acc, res, h => by
    cases h
    exact ⟨[], by simp, by simp⟩
  | l :: ls, acc, res, h => by
    rw [List.foldlM_cons] at h
    cases hstep : Riscv.lineStep acc l with
    | error e => rw [hstep] at h; cases h
    | ok acc' =>
      rw [hstep] at h
      simp only [bind, Except.bind] at h
      obtain ⟨t1, h1, hp1⟩ := riscv_lineStep_append acc l acc' hstep
      obtain ⟨t2, h2, hp2⟩ := riscv_pass1_steps ls acc' res h
      refine ⟨t1 ++ t2, by rw [h2, h1, List.append_assoc], ?_⟩
      rw [hp2, hp1]
      simp [List.length_append]
      ring

/-- After pass 1 the final `pc` is exactly 4 times the number of canonical
instructions. -/
theorem riscv_pass1_pc (raw : List Str) (stmts : List Stmt) (labels : Dict) (pc : Int)
    (h : Riscv.pass1 raw = .ok (stmts, labels, pc)) : pc = 4 * (stmts.length : Int) := by
  obtain ⟨tail, h1, h2⟩ :=
    riscv_pass1_steps (Riscv.cleanLines raw) ([], [], 0) (stmts, labels, pc) h
  simp at h1 h2
  rw [h1]
  exact h2

/-- Counterexample to **C2**: in the MIPS label table a label is bound to
the canonical-instruction *index* (here 1), not to the byte address
`4 * index` (here 4) of the first canonical instruction following it. -/
theorem c2_counterexample :
    Mips.preprocess [S "nop", S "L: nop"] =
      .ok ([⟨S "addi", S "$0, $0, 0"⟩, ⟨S "addi", S "$0, $0, 0"⟩], [(S "L", 1)]) ∧
    (1 : Int) ≠ 4 * 1 :=
  ⟨rfl, by norm_num⟩

/-- **C2 (amended)**: a label definition is recorded against the position
right after everything already expanded — as the canonical-instruction
*index* (`len(clean_lines)`) in MIPS, and as the byte address `pc` (kept
equal to `4 * index` throughout pass 1) in RISC-V — and every preprocessing
step only appends, so a label after a multi-instruction pseudo-op binds past
all instructions the pseudo-op emitted, and one after the last instruction
binds past the last instruction. -/
theorem c2_label_binding :
    (∀ (clean : List Stmt) (labels : Dict) (raw line0 nm rem : Str),
      strip (takeUntil '#' raw) = line0 → line0 ≠ [] →
      splitOnce ':' line0 = some (nm, rem) → strip rem = [] →
      Mips.lineStep (clean, labels) raw =
        .ok (clean, dset labels (strip nm) (clean.length : Int))) ∧
    (∀ (acc : List Stmt × Dict) (raw : Str) (res : List Stmt × Dict),
      Mips.lineStep acc raw = .ok res → ∃ tail, res.1 = acc.1 ++ tail) ∧
    (∀ (lines : List Str) (acc res : List Stmt × Dict),
      List.foldlM Mips.lineStep acc lines = .ok res → ∃ tail, res.1 = acc.1 ++ tail) ∧
    (∀ (processed : List Stmt) (labels : Dict) (pc : Int) (line0 nm rem : Str),
      splitOnce ':' line0 = some (nm, rem) → strip rem = [] →
      Riscv.lineStep (processed, labels, pc) line0 =
        .ok (processed, dset labels (strip nm) pc, pc)) ∧
    (∀ (raw : List Str) (stmts : List Stmt) (labels : Dict) (pc : Int),
      Riscv.pass1 raw = .ok (stmts, labels, pc) → pc = 4 * (stmts.length : Int)) := by
  refine ⟨?_, mips_lineStep_append, mips_preprocess_append, ?_, riscv_pass1_pc⟩
  · intro clean labels raw line0 nm rem hclean hne hsp hrem
    simp [Mips.lineStep, Asm.labelSplit, hclean, hne, hsp, hrem]
  · intro processed labels pc line0 nm rem hsp hrem
    simp [Riscv.lineStep, Asm.labelSplit, hsp, hrem]

/-- Witness for the amended C2: after one `nop`, a MIPS label records index
1; the RISC-V `li` expansion advances `pc` to 8 = 4 · 2, so a following
label records byte address 8. -/
theorem c2_label_binding_witness :
    Mips.lineStep ([⟨S "addi", S "$0, $0, 0"⟩], []) (S "L:") =
      .ok ([⟨S "addi", S "$0, $0, 0"⟩], dset [] (strip (S "L")) 1) ∧
    (8 : Int) = 4 * ((2 : Nat) : Int) ∧
    Riscv.lineStep ([⟨S "lui", S "t0, 0"⟩, ⟨S "addi", S "t0, t0, 5"⟩], [], 8) (S "L:") =
      .ok ([⟨S "lui", S "t0, 0"⟩, ⟨S "addi", S "t0, t0, 5"⟩], dset [] (strip (S "L")) 8, 8) := by
  refine ⟨?_, ?_, ?_⟩
  · exact c2_label_binding.1 [⟨S "addi", S "$0, $0, 0"⟩] [] (S "L:") (S "L:") (S "L") []
      rfl (by decide) rfl rfl
  · exact c2_label_binding.2.2.2.2 [S "li t0, 2"]
      [⟨S "lui", S "t0, " ++ pyStr ((2 + 2048) / 4096)⟩,
        ⟨S "addi", S "t0, t0, " ++ pyStr ((2 : Int) % 4096)⟩] [] 8 rfl
  · exact c2_label_binding.2.2.2.1 [⟨S "lui", S "t0, 0"⟩, ⟨S "addi", S "t0, t0, 5"⟩] [] 8
      (S "L:") (S "L") [] rfl rfl

/-- The MIPS encoding loop succeeds exactly when every statement encodes,
producing one word per statement, in order. -/
theorem mips_pass2_ok :
    ∀ (stmts : List Stmt) (labels : Dict) (i : Nat) (ws : List Int),
      Mips.pass2 labels i stmts = .ok ws →
      ws.length = stmts.length ∧
      ∀ (j : Nat) (st : Stmt), stmts.get? j = some st →
        ∃ w, Mips.encode labels (i + j) st = .ok w ∧ ws.get? j = some w
  | [], labels, i, ws, h => by
    cases h
    exact ⟨rfl, by intro j st hj; simp at hj⟩
  | st' :: rest, labels, i, ws, h => by
    unfold Mips.pass2 at h
    cases he : Mips.encode labels i st' with
    | error e => rw [he] at h; cases h
    | ok w =>
      rw [he] at h
      simp only [bind, Except.bind] at h
      cases hr : Mips.pass2 labels (i + 1) rest with
      | error e => rw [hr] at h; cases h
      | ok ws' =>
        rw [hr] at h
        cases h
        obtain ⟨hlen, hidx⟩ := mips_pass2_ok rest labels (i + 1) ws' hr
        refine ⟨by simp [hlen], ?_⟩
        intro j st hj
        cases j with
        | zero =>
          rw [List.get?_cons_zero] at hj
          injection hj with hj
          subst hj
          exact ⟨w, by rw [Nat.add_zero]; exact he, rfl⟩
        | succ j =>
          rw [List.get?_cons_succ] at hj
          obtain ⟨w2, hw2, hg⟩ := hidx j st hj
          have harith : i + (j + 1) = i + 1 + j := by omega
          exact ⟨w2, by rw [harith]; exact hw2, by rw [List.get?_cons_succ]; exact hg⟩

/-- The RISC-V encoding loop: one masked word per statement, in order. -/
theorem riscv_pass2_ok :
    ∀ (stmts : List Stmt) (labels : Dict) (pc : Int) (ws : List Int),
      Riscv.pass2 labels pc stmts = .ok ws →
      ws.length = stmts.length ∧
      ∀ (j : Nat) (st : Stmt), stmts.get? j = some st →
        ∃ w, Riscv.encode labels (pc + 4 * j) st = .ok w ∧
          ws.get? j = some (w % 4294967296)
  | [], labels, pc, ws, h => by
    cases h
    exact ⟨rfl, by intro j st hj; simp at hj⟩
  | st' :: rest, labels, pc, ws, h => by
    unfold Riscv.pass2 at h
    cases he : Riscv.encode labels pc st' with
    | error e => rw [he] at h; cases h
    | ok w =>
      rw [he] at h
      simp only [bind, Except.bind] at h
      cases hr : Riscv.pass2 labels (pc + 4) rest with
      | error e => rw [hr] at h; cases h
      | ok ws' =>
        rw [hr] at h
        cases h
        obtain ⟨hlen, hidx⟩ := riscv_pass2_ok rest labels (pc + 4) ws' hr
        refine ⟨by simp [hlen], ?_⟩
        intro j st hj
        cases j with
        | zero =>
          rw [List.get?_cons_zero] at hj
          injection hj with hj
          subst hj
          refine ⟨w, ?_, rfl⟩
          have harith : pc + 4 * ((0 : Nat) : Int) = pc := by norm_num
          rw [harith]
          exact he
        | succ j =>
          rw [List.get?_cons_succ] at hj
          obtain ⟨w2, hw2, hg⟩ := hidx j st hj
          have harith : pc + 4 * ((j + 1 : Nat) : Int) = pc + 4 + 4 * (j : Int) := by
            push_cast
            ring
          exact ⟨w2, by rw [harith]; exact hw2, by rw [List.get?_cons_succ]; exact hg⟩

/-- **C6**: for every program that assembles without error, the number of
32-bit output words equals the number of canonical instructions after
pseudo-expansion, and the words appear in canonical-instruction order (the
j-th word encodes the j-th canonical instruction); comment-only and blank
lines are dropped by preprocessing and label-only lines emit no
instruction. -/
theorem c6_word_count :
    (∀ (lines : List Str) (ws : List Int),
      Mips.assemble lines = .ok ws →
      ∃ stmts labels, Mips.preprocess lines = .ok (stmts, labels) ∧
        ws.length = stmts.length ∧
        ∀ (j : Nat) (st : Stmt), stmts.get? j = some st →
          ∃ w, Mips.encode labels j st = .ok w ∧ ws.get? j = some w) ∧
    (∀ (raw : List Str) (ws : List Int),
      Riscv.assemble raw = .ok ws →
      ∃ stmts labels pcEnd, Riscv.pass1 raw = .ok (stmts, labels, pcEnd) ∧
        ws.length = stmts.length ∧
        ∀ (j : Nat) (st : Stmt), stmts.get? j = some st →
          ∃ w, Riscv.encode labels (4 * (j : Int)) st = .ok w ∧
            ws.get? j = some (w % 4294967296)) ∧
    (∀ (acc : List Stmt × Dict) (raw : Str),
      strip (takeUntil '#' raw) = [] → Mips.lineStep acc raw = .ok acc) ∧
    (∀ (raw : Str) (rest : List Str),
      strip (takeUntil '#' raw) = [] → Riscv.cleanLines (raw :: rest) = Riscv.cleanLines rest) ∧
    (∀ (clean : List Stmt) (labels : Dict) (raw line0 nm rem : Str),
      strip (takeUntil '#' raw) = line0 → line0 ≠ [] →
      splitOnce ':' line0 = some (nm, rem) → strip rem = [] →
      (Mips.lineStep (clean, labels) raw).map Prod.fst = .ok clean) ∧
    (∀ (processed : List Stmt) (labels : Dict) (pc : Int) (line0 nm rem : Str),
      splitOnce ':' line0 = some (nm, rem) → strip rem = [] →
      (Riscv.lineStep (processed, labels, pc) line0).map Prod.fst = .ok processed) := by
  refine ⟨?_, ?_, ?_, ?_, ?_, ?_⟩
  · intro lines ws h
    unfold Mips.assemble at h
    cases hp : Mips.preprocess lines with
    | error e => rw [hp] at h; cases h
    | ok p =>
      obtain ⟨stmts0, labels0⟩ := p
      rw [hp] at h
      simp only [bind, Except.bind] at h
      obtain ⟨hlen, hidx⟩ := mips_pass2_ok stmts0 labels0 0 ws h
      refine ⟨stmts0, labels0, rfl, hlen, ?_⟩
      intro j st hj
      obtain ⟨w, hw, hg⟩ := hidx j st hj
      exact ⟨w, by rw [← Nat.zero_add j]; exact hw, hg⟩
  · intro raw ws h
    unfold Riscv.assemble at h
    cases hp : Riscv.pass1 raw with
    | error e => rw [hp] at h; cases h
    | ok p =>
      obtain ⟨stmts0, labels0, pc0⟩ := p
      rw [hp] at h
      simp only [bind, Except.bind] at h
      obtain ⟨hlen, hidx⟩ := riscv_pass2_ok stmts0 labels0 0 ws h
      refine ⟨stmts0, labels0, pc0, rfl, hlen, ?_⟩
      intro j st hj
      obtain ⟨w, hw, hg⟩ := hidx j st hj
      refine ⟨w, ?_, hg⟩
      have harith : (0 : Int) + 4 * (j : Int) = 4 * (j : Int) := by ring
      rw [← harith]
      exact hw
  · intro acc raw h0
    simp [Mips.lineStep, h0]
  · intro raw rest h0
    simp [Riscv.cleanLines, h0]
  · intro clean labels raw line0 nm rem hclean hne hsp hrem
    simp [Mips.lineStep, Asm.labelSplit, hclean, hne, hsp, hrem, Except.map]
  · intro processed labels pc line0 nm rem hsp hrem
    simp [Riscv.lineStep, Asm.labelSplit, hsp, hrem, Except.map]

/-- Witness for C6: a program with a comment line, a blank line, a `nop`
and a label-only line assembles to exactly one word. -/
theorem c6_word_count_witness :
    (∃ stmts labels, Mips.preprocess [S "# only a comment", S "", S "nop", S "L:"] =
        .ok (stmts, labels) ∧
      ([(0x20000000 : Int)] : List Int).length = stmts.length ∧
      ∀ (j : Nat) (st : Stmt), stmts.get? j = some st →
        ∃ w, Mips.encode labels j st = .ok w ∧
          ([(0x20000000 : Int)] : List Int).get? j = some w) ∧
    Mips.assemble [S "# only a comment", S "", S "nop", S "L:"] = .ok [0x20000000] :=
  ⟨c6_word_count.1 [S "# only a comment", S "", S "nop", S "L:"] [0x20000000] rfl, rfl⟩

/-- **C7**: a branch or jump whose target operand is neither a known label
nor parseable as a numeric literal makes the whole assembly abort —
`Except.error ()` models the nonzero exit, and since the word list is only
returned on success, no output file and no partial word list is produced. -/
theorem c7_undefined_label :
    (∀ (lines : List Str) (stmts : List Stmt) (labels : Dict) (j : Nat)
        (argstr a0 a1 t : Str),
      Mips.preprocess lines = .ok (stmts, labels) →
      stmts.get? j = some ⟨S "beq", argstr⟩ →
      split_args Mips.la argstr = [a0, a1, t] →
      dget labels t = none → parseInt0 t = none →
      Mips.assemble lines = .error ()) ∧
    (∀ (lines : List Str) (stmts : List Stmt) (labels : Dict) (j : Nat)
        (argstr a0 t m : Str),
      (m = S "blez" ∨ m = S "bltz") →
      Mips.preprocess lines = .ok (stmts, labels) →
      stmts.get? j = some ⟨m, argstr⟩ →
      split_args Mips.la argstr = [a0, t] →
      dget labels t = none → parseInt0 t = none →
      Mips.assemble lines = .error ()) ∧
    (∀ (lines : List Str) (stmts : List Stmt) (labels : Dict) (j : Nat)
        (argstr t m : Str),
      (m = S "j" ∨ m = S "jal") →
      Mips.preprocess lines = .ok (stmts, labels) →
      stmts.get? j = some ⟨m, argstr⟩ →
      split_args Mips.la argstr = [t] →
      dget labels t = none → parseInt0 t = none →
      Mips.assemble lines = .error ()) ∧
    (∀ (raw : List Str) (stmts : List Stmt) (labels : Dict) (pcEnd : Int) (j : Nat)
        (argstr a0 a1 t m : Str),
      (m = S "beq" ∨ m = S "bne" ∨ m = S "blt" ∨ m = S "bge") →
      Riscv.pass1 raw = .ok (stmts, labels, pcEnd) →
      stmts.get? j = some ⟨m, argstr⟩ →
      split_args Riscv.la argstr = [a0, a1, t] →
      dget labels t = none → parseInt0 t = none →
      Riscv.assemble raw = .error ()) ∧
    (∀ (raw : List Str) (stmts : List Stmt) (labels : Dict) (pcEnd : Int) (j : Nat)
        (argstr a0 t : Str),
      Riscv.pass1 raw = .ok (stmts, labels, pcEnd) →
      stmts.get? j = some ⟨S "jal", argstr⟩ →
      split_args Riscv.la argstr = [a0, t] →
      dget labels t = none → parseInt0 t = none →
      Riscv.assemble raw = .error ()) := by
  refine ⟨?_, ?_, ?_, ?_, ?_⟩
  · intro lines stmts labels j argstr a0 a1 t hpre hj hsplit hL hT
    have herr : ∀ i', Mips.encode labels i' ⟨S "beq", argstr⟩ = .error () := by
      intro i'
      cases hp0 : Mips.parse_reg a0 <;> cases hp1 : Mips.parse_reg a1 <;>
        simp [Mips.encode, hsplit, hp0, hp1, hL, hT, Mips.R_TYPE, Mips.OPCODES,
          Mips.resolve, Asm.dget, Asm.req, Asm.S, bind, Except.bind]
    unfold Mips.assemble
    rw [hpre]
    simp only [bind, Except.bind]
    exact mips_pass2_error labels stmts 0 j _ hj herr
  · intro lines stmts labels j argstr a0 t m hm hpre hj hsplit hL hT
    have herr : ∀ i', Mips.encode labels i' ⟨m, argstr⟩ = .error () := by
      intro i'
      rcases hm with h | h <;> subst h <;> cases hp0 : Mips.parse_reg a0 <;>
        simp [Mips.encode, hsplit, hp0, hL, hT, Mips.R_TYPE, Mips.OPCODES,
          Mips.resolve, Asm.dget, Asm.req, Asm.S, bind, Except.bind]
    unfold Mips.assemble
    rw [hpre]
    simp only [bind, Except.bind]
    exact mips_pass2_error labels stmts 0 j _ hj herr
  · intro lines stmts labels j argstr t m hm hpre hj hsplit hL hT
    have herr : ∀ i', Mips.encode labels i' ⟨m, argstr⟩ = .error () := by
      intro i'
      rcases hm with h | h <;> subst h <;>
        simp [Mips.encode, hsplit, hL, hT, Mips.R_TYPE, Mips.OPCODES,
          Mips.resolve, Asm.dget, Asm.req, Asm.S, bind, Except.bind]
    unfold Mips.assemble
    rw [hpre]
    simp only [bind, Except.bind]
    exact mips_pass2_error labels stmts 0 j _ hj herr
  · intro raw stmts labels pcEnd j argstr a0 a1 t m hm hpre hj hsplit hL hT
    have herr : ∀ pc', Riscv.encode labels pc' ⟨m, argstr⟩ = .error () := by
      intro pc'
      rcases hm with h | h | h | h <;> subst h <;> cases hp0 : Riscv.parse_reg a0 <;>
        cases hp1 : Riscv.parse_reg a1 <;>
        simp [Riscv.encode, hsplit, hp0, hp1, hL, hT, Riscv.OPCODES, Riscv.oget,
          Riscv.resolve, Asm.dget, Asm.req, Asm.S, bind, Except.bind]
    unfold Riscv.assemble
    rw [hpre]
    simp only [bind, Except.bind]
    exact riscv_pass2_error labels stmts 0 j _ hj herr
  · intro raw stmts labels pcEnd j argstr a0 t hpre hj hsplit hL hT
    have herr : ∀ pc', Riscv.encode labels pc' ⟨S "jal", argstr⟩ = .error () := by
      intro pc'
      cases hp0 : Riscv.parse_reg a0 <;>
        simp [Riscv.encode, hsplit, hp0, hL, hT, Riscv.OPCODES, Riscv.oget,
          Riscv.resolve, Asm.dget, Asm.req, Asm.S, bind, Except.bind]
    unfold Riscv.assemble
    rw [hpre]
    simp only [bind, Except.bind]
    exact riscv_pass2_error labels stmts 0 j _ hj herr

/-- Witness for C7: programs that branch or jump to the undefined label
`nowhere` abort on both assemblers. -/
theorem c7_undefined_label_witness :
    Mips.assemble [S "beq $t0, $t1, nowhere"] = .error () ∧
    Riscv.assemble [S "beq t0, t1, nowhere"] = .error () ∧
    Mips.assemble [S "j nowhere"] = .error () :=
  ⟨c7_undefined_label.1 [S "beq $t0, $t1, nowhere"] [⟨S "beq", S "$t0, $t1, nowhere"⟩]
     [] 0 (S "$t0, $t1, nowhere") (S "$t0") (S "$t1") (S "nowhere") rfl rfl rfl rfl rfl,
   c7_undefined_label.2.2.2.1 [S "beq t0, t1, nowhere"] [⟨S "beq", S "t0, t1, nowhere"⟩]
     [] 4 0 (S "t0, t1, nowhere") (S "t0") (S "t1") (S "nowhere") (S "beq") (Or.inl rfl)
     rfl rfl rfl rfl rfl,
   c7_undefined_label.2.2.1 [S "j nowhere"] [⟨S "j", S "nowhere"⟩] [] 0 (S "nowhere")
     (S "nowhere") (S "j") (Or.inl rfl) rfl rfl rfl rfl rfl⟩
